import Mathlib

/-!
# Video upload pipeline (`handler_upload_video.go`)

A shallow embedding of the video upload handler of the repository:

* `getVideoAspectRatio` — classification of the probed width/height, with the
  `float64` arithmetic of the source modelled exactly (round to nearest, ties to
  even, 53-bit significand);
* `fileKeyString` — the object key, `base64.RawURLEncoding` of 16 random bytes plus
  `.mp4` (`handler_upload_thumbnail.go` names its file with the same encoding);
* `dbVideoToSignedVideo` — decoding of the persisted `bucket,key` string;
* `handlerUploadVideo` — the staged pipeline, as a function of the outcomes of
  the external collaborators, producing the final world state and event log.
-/

namespace Tubely

/-! ## float64 arithmetic -/

/-- A finite binary64 value, `man * 2 ^ exp`. -/
structure F64 where
  man : Int
  exp : Int
  deriving DecidableEq, Repr

/-- The rational number a finite binary64 value stands for. -/
def F64.toRat (x : F64) : ℚ := (x.man : ℚ) * (2 : ℚ) ^ x.exp

/-- Nearest natural number to `n / d`, ties broken towards the even neighbour. -/
def roundHalfEven (n d : Nat) : Nat :=
  let q := n / d
  let r := n % d
  if 2 * r < d then q else if d < 2 * r then q + 1 else if q % 2 = 0 then q else q + 1

/-- Halving loop behind `ilog2`; the first argument bounds the number of iterations. -/
def log2Fuel : Nat → Nat → Nat
  | 0, _ => 0
  | fuel + 1, n => if n < 2 then 0 else log2Fuel fuel (n / 2) + 1

/-- Position of the leading bit of `n`: `2 ^ ilog2 n ≤ n < 2 ^ (ilog2 n + 1)` for `n > 0`. -/
def ilog2 (n : Nat) : Nat := log2Fuel n n

/-- The binary exponent `e` of the positive fraction `n / d`: `2 ^ e ≤ n / d < 2 ^ (e + 1)`. -/
def binExponent (n d : Nat) : Int :=
  let e0 : Int := (ilog2 n : Int) - (ilog2 d : Int)
  if (if 0 ≤ e0 then 2 ^ e0.toNat * d ≤ n else d ≤ 2 ^ (-e0).toNat * n) then e0 else e0 - 1

/-- Correct rounding of the fraction `± n / d` to binary64 (round to nearest, ties to even,
53-bit significand).  The exponent is not bounded: no overflow or underflow occurs on the
values `getVideoAspectRatio` computes from 64-bit integers. -/
def f64OfFrac (neg : Bool) (n d : Nat) : F64 :=
  if n = 0 then ⟨0, 0⟩ else
  let k : Int := 52 - binExponent n d
  let m : Nat :=
    if 0 ≤ k then roundHalfEven (n * 2 ^ k.toNat) d else roundHalfEven n (d * 2 ^ (-k).toNat)
  ⟨if neg then -(m : Int) else (m : Int), -k⟩

/-- Conversion `float64(i)` of an integer. -/
def F64.ofInt (i : Int) : F64 := f64OfFrac (decide (i < 0)) i.natAbs 1

/-- Division `a / b` in float64, for `b ≠ 0`. -/
def F64.div (a b : F64) : F64 :=
  let s : Int := a.exp - b.exp
  f64OfFrac (xor (decide (a.man < 0)) (decide (b.man < 0)))
    (a.man.natAbs * (if 0 ≤ s then 2 ^ s.toNat else 1))
    (b.man.natAbs * (if 0 ≤ s then 1 else 2 ^ (-s).toNat))

/-- Subtraction `a - b` in float64. -/
def F64.sub (a b : F64) : F64 :=
  let e : Int := min a.exp b.exp
  let v : Int := a.man * 2 ^ (a.exp - e).toNat - b.man * 2 ^ (b.exp - e).toNat
  f64OfFrac (decide (v < 0))
    (v.natAbs * (if 0 ≤ e then 2 ^ e.toNat else 1))
    (if 0 ≤ e then 1 else 2 ^ (-e).toNat)

/-- Absolute value `math.Abs`. -/
def F64.abs (a : F64) : F64 := ⟨(a.man.natAbs : Int), a.exp⟩

/-- Comparison `a < b` in float64. -/
def F64.lt (a b : F64) : Bool :=
  let e : Int := min a.exp b.exp
  decide (a.man * 2 ^ (a.exp - e).toNat < b.man * 2 ^ (b.exp - e).toNat)

/-! ## `getVideoAspectRatio` -/

/-- One entry of the `streams` array of the probe output (`type Stream`). -/
structure Stream where
  width : Int
  height : Int
  deriving DecidableEq, Repr

/-- What running the probe and decoding its output gave. -/
inductive ProbeOutcome where
  | runFailed
  | parseFailed
  | parsed (streams : List Stream)
  deriving DecidableEq, Repr

/-- The errors `getVideoAspectRatio` returns. -/
inductive ProbeError where
  | failedToRun
  | failedToParse
  | noVideoStreams
  | invalidDimensions (width height : Int)
  deriving DecidableEq, Repr

/-- The constant `tolerance = 0.01` as a float64. -/
def tolerance : F64 := f64OfFrac false 1 100

/-- The aspect-ratio comparison of `getVideoAspectRatio` (lines 83–100), for
non-zero `width` and `height`. -/
def classifyRatio (width height : Int) : String :=
  let ratio := F64.div (F64.ofInt width) (F64.ofInt height)
  if F64.lt (F64.abs (F64.sub ratio (f64OfFrac false 16 9))) tolerance then "16:9"
  else if F64.lt (F64.abs (F64.sub ratio (f64OfFrac false 9 16))) tolerance then "9:16"
  else "other"

/-- The function `getVideoAspectRatio`, as a function of the outcome of the probe invocation. -/
def getVideoAspectRatio (probe : ProbeOutcome) : Except ProbeError String :=
  match probe with
  | .runFailed => .error .failedToRun
  | .parseFailed => .error .failedToParse
  | .parsed [] => .error .noVideoStreams
  | .parsed (s :: _) =>
    if s.width = 0 ∨ s.height = 0 then .error (.invalidDimensions s.width s.height)
    else .ok (classifyRatio s.width s.height)


/-- The `switch aspectRatio` of `handlerUploadVideo` (lines 223–231). -/
def filePrefixOf (aspectRatio : String) : String :=
  if aspectRatio = "16:9" then "landscape"
  else if aspectRatio = "9:16" then "portrait"
  else "other"

/-! ## `base64.RawURLEncoding` -/

/-- A byte. -/
abbrev Byte := Fin 256

/-- The URL-safe alphabet of `encoding/base64`. -/
def encodeURL : List Char :=
  "ABCDEFGHIJKLMNOPQRSTUVWXYZabcdefghijklmnopqrstuvwxyz0123456789-_".data

/-- The character of a 6-bit value, `enc.encode[v]`. -/
def encodeChar (v : Nat) : Char := encodeURL.getD v 'A'

/-- The loop of `Encoding.Encode` without padding: three bytes give the 24-bit value
`b0<<16 | b1<<8 | b2`, written as four 6-bit digits; one or two remaining bytes give two or
three digits. -/
def rawURLEncode : List Byte → List Char
  | b0 :: b1 :: b2 :: rest =>
    let val := b0.val * 65536 + b1.val * 256 + b2.val
    encodeChar (val / 262144 % 64) :: encodeChar (val / 4096 % 64) ::
      encodeChar (val / 64 % 64) :: encodeChar (val % 64) :: rawURLEncode rest
  | [b0, b1] =>
    let val := b0.val * 65536 + b1.val * 256
    [encodeChar (val / 262144 % 64), encodeChar (val / 4096 % 64), encodeChar (val / 64 % 64)]
  | [b0] =>
    let val := b0.val * 65536
    [encodeChar (val / 262144 % 64), encodeChar (val / 4096 % 64)]
  | [] => []

/-- The key of line 247: `base64.RawURLEncoding.EncodeToString(fileKey) + ".mp4"`. -/
def fileKeyString (fileKey : List Byte) : String :=
  String.mk (rawURLEncode fileKey) ++ ".mp4"

/-- The characters of a key: `A`–`Z`, `a`–`z`, `0`–`9`, `-` and `_`. -/
def isKeyChar (c : Char) : Bool := c.isAlphanum || c == '-' || c == '_'

/-- The 6-bit value of a character of the alphabet (its position in `encodeURL`). -/
def decodeChar (c : Char) : Nat := encodeURL.indexOf c

/-- The inverse of `rawURLEncode`: four digits give back three bytes, three digits two bytes,
two digits one byte. -/
def rawURLDecode : List Char → List Byte
  | c0 :: c1 :: c2 :: c3 :: rest =>
    let val := decodeChar c0 * 262144 + decodeChar c1 * 4096 + decodeChar c2 * 64 + decodeChar c3
    ⟨val / 65536 % 256, Nat.mod_lt _ (by decide)⟩ :: ⟨val / 256 % 256, Nat.mod_lt _ (by decide)⟩ ::
      ⟨val % 256, Nat.mod_lt _ (by decide)⟩ :: rawURLDecode rest
  | [c0, c1, c2] =>
    let val := decodeChar c0 * 262144 + decodeChar c1 * 4096 + decodeChar c2 * 64
    [⟨val / 65536 % 256, Nat.mod_lt _ (by decide)⟩, ⟨val / 256 % 256, Nat.mod_lt _ (by decide)⟩]
  | [c0, c1] =>
    let val := decodeChar c0 * 262144 + decodeChar c1 * 4096
    [⟨val / 65536 % 256, Nat.mod_lt _ (by decide)⟩]
  | _ => []

/-- The eight bits of a byte, most significant first. -/
def byteBits (b : Byte) : List Nat :=
  [b.val / 128 % 2, b.val / 64 % 2, b.val / 32 % 2, b.val / 16 % 2,
    b.val / 8 % 2, b.val / 4 % 2, b.val / 2 % 2, b.val % 2]

/-- The bits of a byte sequence, in order. -/
def bitsOf : List Byte → List Nat
  | [] => []
  | b :: rest => byteBits b ++ bitsOf rest

/-- The numbers read from successive groups of six bits, the last group filled up with zero
bits. -/
def sextets : List Nat → List Nat
  | x0 :: x1 :: x2 :: x3 :: x4 :: x5 :: rest =>
    (32 * x0 + 16 * x1 + 8 * x2 + 4 * x3 + 2 * x4 + x5) :: sextets rest
  | [x0, x1, x2, x3, x4] => [32 * x0 + 16 * x1 + 8 * x2 + 4 * x3 + 2 * x4]
  | [x0, x1, x2, x3] => [32 * x0 + 16 * x1 + 8 * x2 + 4 * x3]
  | [x0, x1, x2] => [32 * x0 + 16 * x1 + 8 * x2]
  | [x0, x1] => [32 * x0 + 16 * x1]
  | [x0] => [32 * x0]
  | [] => []

/-- Padding-free URL-safe base64 as a description of the result: the bits of the input, in
order, cut into groups of six (the last one zero-filled), each group written as the character
of its value in the URL-safe alphabet. -/
def base64URLSpec (b : List Byte) : List Char := (sextets (bitsOf b)).map encodeChar

/-! ## The persisted locator string -/

/-- The fields of a string between occurrences of `sep`, as `strings.Split` returns them for
a one-character separator: a string with `n` separators has `n + 1` fields.  (A Go string is
a byte sequence; for the ASCII separator `,` a UTF-8 string has the same fields whether it is
cut by bytes or by characters.) -/
def splitChars (sep : Char) : List Char → List (List Char)
  | [] => [[]]
  | c :: cs =>
    if c = sep then [] :: splitChars sep cs
    else match splitChars sep cs with
      | [] => [[c]]
      | f :: fs => (c :: f) :: fs

/-- The call `strings.Split(s, ",")`. -/
def splitComma (s : String) : List String := (splitChars ',' s.data).map String.mk

/-- The string of line 264: `fmt.Sprintf("%s,%s/%s", cfg.s3Bucket, filePrefix, fileKeyString)`. -/
def sprintfVideoURL (s3Bucket filePrefix fileKeyString : String) : String :=
  s3Bucket ++ "," ++ filePrefix ++ "/" ++ fileKeyString

/-- The result of a function that may return a value, return an error, or panic. -/
inductive Outcome (α : Type) where
  | ok (a : α)
  | error (msg : String)
  | panic
  deriving DecidableEq, Repr

/-- Lines 122–123 of `dbVideoToSignedVideo`: fields 0 and 1 of the split of the stored
string.  An index past the end of the slice is a run-time panic, here `none`. -/
def locatorFields (videoURL : String) : Option (String × String) :=
  match (splitComma videoURL).get? 0, (splitComma videoURL).get? 1 with
  | some bucket, some key => some (bucket, key)
  | _, _ => none

/-- A row of the video table (`database.Video`), with the fields the handlers use. -/
structure Video where
  id : Nat
  userID : Nat
  videoURL : Option String
  thumbnailURL : Option String
  deriving DecidableEq, Repr

/-! ## `handlerUploadVideo` -/

/-- The observable actions of a handler, in the order they happen. -/
inductive Event where
  | getVideo (videoID : Nat)
  | createTemp (name : String)
  | copyToTemp (name : String)
  | runFfmpeg (input output : String)
  | runFfprobe (path : String)
  | openFile (path : String)
  | closeFile (path : String)
  | removeFile (path : String)
  | randRead
  | putObject (bucket key contentType : String)
  | updateVideo (video : Video)
  | presignGetObject (bucket key : String)
  | respondWithError (code : Nat) (msg : String)
  | respondWithJSON (code : Nat) (video : Video)
  | panicked
  deriving DecidableEq, Repr

/-- What a handler acts on: the local files, the video table, the object store, and the log
of the actions taken so far (oldest first). -/
structure World where
  files : List String
  db : List Video
  objects : List (String × String)
  log : List Event
  deriving DecidableEq, Repr

/-- The outcomes of the calls one request makes outside the handler. -/
structure Env where
  /-- the bucket name `cfg.s3Bucket` -/
  s3Bucket : String
  /-- the identifier `uuid.Parse(r.PathValue("videoID"))` returns -/
  videoID : Option Nat
  /-- the token `auth.GetBearerToken` finds in the request header -/
  bearerToken : Option String
  /-- the user `auth.ValidateJWT` returns for the token -/
  userID : Option Nat
  /-- whether `r.FormFile("video")` finds the part -/
  formFile : Bool
  /-- the media type `mime.ParseMediaType` returns for the part's `Content-Type` header -/
  mediaType : Option String
  /-- the name `os.CreateTemp` gives the new file -/
  createTemp : Option String
  /-- whether `io.Copy` to the temp file succeeds -/
  copyOk : Bool
  /-- whether `ffmpeg` exits with status 0 -/
  ffmpegExitOk : Bool
  /-- whether `ffmpeg` has created its output file when it exits -/
  ffmpegWroteOutput : Bool
  /-- the result of running `ffprobe` and decoding its output -/
  probe : ProbeOutcome
  /-- whether `os.Open` of the processed file succeeds -/
  openOk : Bool
  /-- the 16 bytes `rand.Read` stores in `fileKey` -/
  randBytes : Option (Fin 16 → Byte)
  /-- whether `PutObject` returns without error -/
  putObjectOk : Bool
  /-- whether `UpdateVideo` returns without error -/
  updateOk : Bool
  /-- the URL `generatePresignedURL` returns for a bucket and a key, `none` for an error -/
  generatePresignedURL : String → String → Option String

/-- Append an action to the log. -/
def World.emit (w : World) (e : Event) : World := { w with log := w.log ++ [e] }

/-- The method `dbVideoToSignedVideo`: decode the stored string, ask for a presigned URL of the decoded
bucket and key, and return the video with that URL. -/
def dbVideoToSignedVideo (env : Env) (video : Video) (w : World) : World × Outcome Video :=
  match video.videoURL with
  | none => (w, .panic)
  | some url =>
    match locatorFields url with
    | none => (w, .panic)
    | some (bucket, key) =>
      let w := w.emit (.presignGetObject bucket key)
      match env.generatePresignedURL bucket key with
      | none => (w, .error "failed to presign request")
      | some presignedURL => (w, .ok { video with videoURL := some presignedURL })

/-- The helper `respondWithError`: an error response with a status code and a message. -/
def respondWithError (w : World) (code : Nat) (msg : String) : World :=
  w.emit (.respondWithError code msg)

/-- The helper `respondWithJSON`: a response with a status code and a video as body. -/
def respondWithJSON (w : World) (code : Nat) (video : Video) : World :=
  w.emit (.respondWithJSON code video)

/-- The call `os.Remove(path)`: the path no longer names a file. -/
def osRemove (path : String) (w : World) : World :=
  { w with files := w.files.filter (fun p => p ≠ path), log := w.log ++ [.removeFile path] }

/-- The call `File.Close` on the file at `path`. -/
def closeFile (path : String) (w : World) : World := w.emit (.closeFile path)

/-- Modelled from the spec: `cfg.db.GetVideo` of `internal/database`, which reads the video
record keyed by its identifier. -/
def dbGetVideo (w : World) (videoID : Nat) : Option Video :=
  w.db.find? (fun v => v.id = videoID)

/-- Modelled from the spec: `cfg.db.UpdateVideo` of `internal/database`, which replaces the
stored record that has the identifier of `video`; the handler ignores its error. -/
def dbUpdateVideo (env : Env) (video : Video) (w : World) : World :=
  { w with
    db := if env.updateOk then w.db.map (fun v => if v.id = video.id then video else v) else w.db
    log := w.log ++ [.updateVideo video] }

/-- The function `processVideoForFastStart`: runs `ffmpeg` from `filePath` to `filePath + ".processing.mp4"`
and returns the output path when the exit status is 0. -/
def processVideoForFastStart (env : Env) (filePath : String) (w : World) :
    World × Option String :=
  let outputFilePath := filePath ++ ".processing.mp4"
  let w := w.emit (.runFfmpeg filePath outputFilePath)
  let w := if env.ffmpegWroteOutput then { w with files := outputFilePath :: w.files } else w
  if env.ffmpegExitOk then (w, some outputFilePath) else (w, none)

/-- Lines 241–277 of `handlerUploadVideo`: key generation, upload, metadata update and
response, run while the processed file is open. -/
def uploadAndRecord (env : Env) (video : Video) (mediaType filePrefix : String) (w : World) :
    World :=
  let w := w.emit .randRead
  match env.randBytes with
  | none => respondWithError w 500 "Couldn't generate file key"
  | some fileKey =>
    let fileKeyStr := fileKeyString (List.ofFn fileKey)
    let key := filePrefix ++ "/" ++ fileKeyStr
    let w := w.emit (.putObject env.s3Bucket key mediaType)
    if ¬ env.putObjectOk then respondWithError w 500 "Couldn't upload processed file"
    else
      let w := { w with objects := (env.s3Bucket, key) :: w.objects }
      let videoURL := sprintfVideoURL env.s3Bucket filePrefix fileKeyStr
      let video := { video with videoURL := some videoURL }
      let w := dbUpdateVideo env video w
      match dbVideoToSignedVideo env video w with
      | (w, .ok signedVideo) => respondWithJSON w 200 signedVideo
      | (w, .error _) => respondWithError w 500 "Couldn't get signed video"
      | (w, .panic) => w.emit .panicked

/-- Lines 217–277 of `handlerUploadVideo`: what runs after `defer os.Remove(processedFilePath)`
has been registered. -/
def classifyAndUpload (env : Env) (video : Video) (mediaType processedFilePath : String)
    (w : World) : World :=
  let w := w.emit (.runFfprobe processedFilePath)
  match getVideoAspectRatio env.probe with
  | .error _ => respondWithError w 500 "Couldn't get video aspect ratio"
  | .ok aspectRatio =>
    let filePrefix := filePrefixOf aspectRatio
    let w := w.emit (.openFile processedFilePath)
    if ¬ env.openOk then respondWithError w 500 "Couldn't open processed file"
    else
      -- defer processedFile.Close()
      closeFile processedFilePath (uploadAndRecord env video mediaType filePrefix w)

/-- Lines 203–277 of `handlerUploadVideo`: what runs after the two deferred calls on the temp
file have been registered. -/
def stageAndProcess (env : Env) (video : Video) (mediaType tempName : String) (w : World) :
    World :=
  let w := w.emit (.copyToTemp tempName)
  if ¬ env.copyOk then respondWithError w 500 "Couldn't copy video file"
  else
    match processVideoForFastStart env tempName w with
    | (w, none) => respondWithError w 500 "Couldn't process video"
    | (w, some processedFilePath) =>
      -- defer os.Remove(processedFilePath)
      osRemove processedFilePath (classifyAndUpload env video mediaType processedFilePath w)

/-- The handler `handlerUploadVideo`: the world after the handler has returned, deferred calls included. -/
def handlerUploadVideo (env : Env) (w : World) : World :=
  match env.videoID with
  | none => respondWithError w 400 "Invalid ID"
  | some videoID =>
  match env.bearerToken with
  | none => respondWithError w 401 "Couldn't find JWT"
  | some _ =>
  match env.userID with
  | none => respondWithError w 401 "Couldn't validate JWT"
  | some userID =>
  if ¬ env.formFile then respondWithError w 400 "Couldn't find video file"
  else
  -- defer videoFile.Close()
  match env.mediaType with
  | none => respondWithError w 400 "Invalid video file type"
  | some mediaType =>
  if mediaType ≠ "video/mp4" then respondWithError w 400 "Invalid video file type"
  else
  let w := w.emit (.getVideo videoID)
  match dbGetVideo w videoID with
  | none => respondWithError w 500 "Couldn't get video"
  | some video =>
  if video.userID ≠ userID then
    respondWithError w 401 "You are not authorized to upload a video for this user"
  else
  match env.createTemp with
  | none => respondWithError w 500 "Couldn't create temp file"
  | some tempName =>
    let w := { w with files := tempName :: w.files, log := w.log ++ [.createTemp tempName] }
    -- defer os.Remove(tempFile.Name()); defer tempFile.Close()
    osRemove tempName (closeFile tempName (stageAndProcess env video mediaType tempName w))

/-! ## The runs of `handlerUploadVideo`

`Run env w w'` lists the ways the handler can end, one constructor per exit, with the final
world written out; `handlerUploadVideo_run` shows the handler always ends in one of them. -/

/-- The world after the handler has left through one of its exits. -/
inductive Run (env : Env) (w : World) : World → Prop where
  | invalidID (h : env.videoID = none) :
    Run env w { w with log := w.log ++ [.respondWithError 400 "Invalid ID"] }
  | noToken (videoID : Nat) (hv : env.videoID = some videoID) (h : env.bearerToken = none) :
    Run env w { w with log := w.log ++ [.respondWithError 401 "Couldn't find JWT"] }
  | badToken (videoID : Nat) (hv : env.videoID = some videoID) (h : env.userID = none) :
    Run env w { w with log := w.log ++ [.respondWithError 401 "Couldn't validate JWT"] }
  | noFormFile (h : env.formFile = false) :
    Run env w { w with log := w.log ++ [.respondWithError 400 "Couldn't find video file"] }
  | badMediaType (h : env.mediaType ≠ some "video/mp4") :
    Run env w { w with log := w.log ++ [.respondWithError 400 "Invalid video file type"] }
  | noVideo (videoID : Nat) (hv : env.videoID = some videoID) (h : dbGetVideo w videoID = none) :
    Run env w { w with
      log := w.log ++ [.getVideo videoID, .respondWithError 500 "Couldn't get video"] }
  | notOwner (videoID userID : Nat) (video : Video) (hv : env.videoID = some videoID)
      (hu : env.userID = some userID) (hg : dbGetVideo w videoID = some video)
      (h : video.userID ≠ userID) :
    Run env w { w with
      log := w.log ++ [.getVideo videoID, .respondWithError 401
        "You are not authorized to upload a video for this user"] }
  | noTemp (videoID userID : Nat) (video : Video) (hv : env.videoID = some videoID)
      (hu : env.userID = some userID) (hm : env.mediaType = some "video/mp4")
      (hg : dbGetVideo w videoID = some video) (ho : video.userID = userID)
      (h : env.createTemp = none) :
    Run env w { w with
      log := w.log ++ [.getVideo videoID, .respondWithError 500 "Couldn't create temp file"] }
  | copyFailed (videoID userID : Nat) (video : Video) (temp : String)
      (hv : env.videoID = some videoID)
      (hu : env.userID = some userID) (hm : env.mediaType = some "video/mp4")
      (hg : dbGetVideo w videoID = some video) (ho : video.userID = userID)
      (ht : env.createTemp = some temp) (h : env.copyOk = false) :
    Run env w { w with
      files := (temp :: w.files).filter (fun p => p ≠ temp)
      log := w.log ++ [.getVideo videoID, .createTemp temp, .copyToTemp temp,
        .respondWithError 500 "Couldn't copy video file", .closeFile temp, .removeFile temp] }
  | remuxFailed (videoID userID : Nat) (video : Video) (temp : String)
      (hv : env.videoID = some videoID)
      (hu : env.userID = some userID) (hm : env.mediaType = some "video/mp4")
      (hg : dbGetVideo w videoID = some video) (ho : video.userID = userID)
      (ht : env.createTemp = some temp) (hc : env.copyOk = true)
      (h : env.ffmpegExitOk = false) :
    Run env w { w with
      files := (if env.ffmpegWroteOutput then (temp ++ ".processing.mp4") :: temp :: w.files
        else temp :: w.files).filter (fun p => p ≠ temp)
      log := w.log ++ [.getVideo videoID, .createTemp temp, .copyToTemp temp,
        .runFfmpeg temp (temp ++ ".processing.mp4"),
        .respondWithError 500 "Couldn't process video", .closeFile temp, .removeFile temp] }
  | probeFailed (videoID userID : Nat) (video : Video) (temp : String) (e : ProbeError)
      (hv : env.videoID = some videoID)
      (hu : env.userID = some userID) (hm : env.mediaType = some "video/mp4")
      (hg : dbGetVideo w videoID = some video) (ho : video.userID = userID)
      (ht : env.createTemp = some temp) (hc : env.copyOk = true)
      (hx : env.ffmpegExitOk = true) (h : getVideoAspectRatio env.probe = .error e) :
    Run env w { w with
      files := ((if env.ffmpegWroteOutput then (temp ++ ".processing.mp4") :: temp :: w.files
        else temp :: w.files).filter (fun p => p ≠ temp ++ ".processing.mp4")).filter
          (fun p => p ≠ temp)
      log := w.log ++ [.getVideo videoID, .createTemp temp, .copyToTemp temp,
        .runFfmpeg temp (temp ++ ".processing.mp4"), .runFfprobe (temp ++ ".processing.mp4"),
        .respondWithError 500 "Couldn't get video aspect ratio",
        .removeFile (temp ++ ".processing.mp4"), .closeFile temp, .removeFile temp] }
  | openFailed (videoID userID : Nat) (video : Video) (temp aspectRatio : String)
      (hv : env.videoID = some videoID)
      (hu : env.userID = some userID) (hm : env.mediaType = some "video/mp4")
      (hg : dbGetVideo w videoID = some video) (ho : video.userID = userID)
      (ht : env.createTemp = some temp) (hc : env.copyOk = true)
      (hx : env.ffmpegExitOk = true) (hp : getVideoAspectRatio env.probe = .ok aspectRatio)
      (h : env.openOk = false) :
    Run env w { w with
      files := ((if env.ffmpegWroteOutput then (temp ++ ".processing.mp4") :: temp :: w.files
        else temp :: w.files).filter (fun p => p ≠ temp ++ ".processing.mp4")).filter
          (fun p => p ≠ temp)
      log := w.log ++ [.getVideo videoID, .createTemp temp, .copyToTemp temp,
        .runFfmpeg temp (temp ++ ".processing.mp4"), .runFfprobe (temp ++ ".processing.mp4"),
        .openFile (temp ++ ".processing.mp4"),
        .respondWithError 500 "Couldn't open processed file",
        .removeFile (temp ++ ".processing.mp4"), .closeFile temp, .removeFile temp] }
  | randFailed (videoID userID : Nat) (video : Video) (temp aspectRatio : String)
      (hv : env.videoID = some videoID)
      (hu : env.userID = some userID) (hm : env.mediaType = some "video/mp4")
      (hg : dbGetVideo w videoID = some video) (ho : video.userID = userID)
      (ht : env.createTemp = some temp) (hc : env.copyOk = true)
      (hx : env.ffmpegExitOk = true) (hp : getVideoAspectRatio env.probe = .ok aspectRatio)
      (hop : env.openOk = true) (h : env.randBytes = none) :
    Run env w { w with
      files := ((if env.ffmpegWroteOutput then (temp ++ ".processing.mp4") :: temp :: w.files
        else temp :: w.files).filter (fun p => p ≠ temp ++ ".processing.mp4")).filter
          (fun p => p ≠ temp)
      log := w.log ++ [.getVideo videoID, .createTemp temp, .copyToTemp temp,
        .runFfmpeg temp (temp ++ ".processing.mp4"), .runFfprobe (temp ++ ".processing.mp4"),
        .openFile (temp ++ ".processing.mp4"), .randRead,
        .respondWithError 500 "Couldn't generate file key",
        .closeFile (temp ++ ".processing.mp4"),
        .removeFile (temp ++ ".processing.mp4"), .closeFile temp, .removeFile temp] }
  | putFailed (videoID userID : Nat) (video : Video) (temp aspectRatio : String)
      (fileKey : Fin 16 → Byte) (hv : env.videoID = some videoID)
      (hu : env.userID = some userID) (hm : env.mediaType = some "video/mp4")
      (hg : dbGetVideo w videoID = some video) (ho : video.userID = userID)
      (ht : env.createTemp = some temp) (hc : env.copyOk = true)
      (hx : env.ffmpegExitOk = true) (hp : getVideoAspectRatio env.probe = .ok aspectRatio)
      (hop : env.openOk = true) (hr : env.randBytes = some fileKey)
      (h : env.putObjectOk = false) :
    Run env w { w with
      files := ((if env.ffmpegWroteOutput then (temp ++ ".processing.mp4") :: temp :: w.files
        else temp :: w.files).filter (fun p => p ≠ temp ++ ".processing.mp4")).filter
          (fun p => p ≠ temp)
      log := w.log ++ [.getVideo videoID, .createTemp temp, .copyToTemp temp,
        .runFfmpeg temp (temp ++ ".processing.mp4"), .runFfprobe (temp ++ ".processing.mp4"),
        .openFile (temp ++ ".processing.mp4"), .randRead,
        .putObject env.s3Bucket
          (filePrefixOf aspectRatio ++ "/" ++ fileKeyString (List.ofFn fileKey)) "video/mp4",
        .respondWithError 500 "Couldn't upload processed file",
        .closeFile (temp ++ ".processing.mp4"),
        .removeFile (temp ++ ".processing.mp4"), .closeFile temp, .removeFile temp] }
  | uploaded (videoID userID : Nat) (video : Video) (temp aspectRatio : String)
      (fileKey : Fin 16 → Byte) (tail : List Event) (hv : env.videoID = some videoID)
      (hu : env.userID = some userID) (hm : env.mediaType = some "video/mp4")
      (hg : dbGetVideo w videoID = some video) (ho : video.userID = userID)
      (ht : env.createTemp = some temp) (hc : env.copyOk = true)
      (hx : env.ffmpegExitOk = true) (hp : getVideoAspectRatio env.probe = .ok aspectRatio)
      (hop : env.openOk = true) (hr : env.randBytes = some fileKey)
      (hput : env.putObjectOk = true)
      (htail : (locatorFields (sprintfVideoURL env.s3Bucket (filePrefixOf aspectRatio)
            (fileKeyString (List.ofFn fileKey))) = none ∧ tail = [.panicked]) ∨
        ∃ bucket key, locatorFields (sprintfVideoURL env.s3Bucket (filePrefixOf aspectRatio)
            (fileKeyString (List.ofFn fileKey))) = some (bucket, key) ∧
          (tail = [.presignGetObject bucket key,
              .respondWithError 500 "Couldn't get signed video"] ∨
            ∃ url, env.generatePresignedURL bucket key = some url ∧
              tail = [.presignGetObject bucket key, .respondWithJSON 200
                { video with videoURL := some url }])) :
    Run env w
      { files := ((if env.ffmpegWroteOutput then
            (temp ++ ".processing.mp4") :: temp :: w.files
          else temp :: w.files).filter (fun p => p ≠ temp ++ ".processing.mp4")).filter
            (fun p => p ≠ temp)
        db := if env.updateOk then
            w.db.map (fun v => if v.id = video.id then
              { video with videoURL := some (sprintfVideoURL env.s3Bucket
                (filePrefixOf aspectRatio) (fileKeyString (List.ofFn fileKey))) } else v)
          else w.db
        objects := (env.s3Bucket,
          filePrefixOf aspectRatio ++ "/" ++ fileKeyString (List.ofFn fileKey)) :: w.objects
        log := w.log ++ ([.getVideo videoID, .createTemp temp, .copyToTemp temp,
          .runFfmpeg temp (temp ++ ".processing.mp4"), .runFfprobe (temp ++ ".processing.mp4"),
          .openFile (temp ++ ".processing.mp4"), .randRead,
          .putObject env.s3Bucket
            (filePrefixOf aspectRatio ++ "/" ++ fileKeyString (List.ofFn fileKey)) "video/mp4",
          .updateVideo { video with videoURL := some (sprintfVideoURL env.s3Bucket
            (filePrefixOf aspectRatio) (fileKeyString (List.ofFn fileKey))) }] ++ tail ++
          [.closeFile (temp ++ ".processing.mp4"),
            .removeFile (temp ++ ".processing.mp4"), .closeFile temp, .removeFile temp]) }

/-! ## A concrete request -/

/-- A request in which every collaborator succeeds: bucket `tube-private-12345`, video 1 owned
by user 7, a probe reporting one 1280x720 stream, key bytes 0, 1, …, 15. -/
def demoEnv : Env where
  s3Bucket := "tube-private-12345"
  videoID := some 1
  bearerToken := some "token"
  userID := some 7
  formFile := true
  mediaType := some "video/mp4"
  createTemp := some "/tmp/tubely-upload.mp4123"
  copyOk := true
  ffmpegExitOk := true
  ffmpegWroteOutput := true
  probe := .parsed [⟨1280, 720⟩]
  openOk := true
  randBytes := some (fun i => Fin.ofNat i.val)
  putObjectOk := true
  updateOk := true
  generatePresignedURL := fun bucket key => some ("https://" ++ bucket ++ "/" ++ key ++ "?signed")

/-- A world whose video table holds video 1 of user 7, with no files and no objects. -/
def demoWorld : World where
  files := []
  db := [⟨1, 7, none, none⟩]
  objects := []
  log := []

/-! ## Lemmas on the locator string -/

theorem splitChars_ne_nil (sep : Char) (l : List Char) : splitChars sep l ≠ [] := by
  cases l with
  | nil => simp [splitChars]
  | cons c cs =>
    simp only [splitChars]
    split
    · simp
    · split <;> simp

theorem splitChars_of_not_mem (sep : Char) (l : List Char) (h : sep ∉ l) :
    splitChars sep l = [l] := by
  induction l with
  | nil => rfl
  | cons c cs ih =>
    have hc : c ≠ sep := fun e => h (by simp [e])
    have hcs : sep ∉ cs := fun e => h (by simp [e])
    simp [splitChars, hc, ih hcs]

theorem splitChars_append_sep (sep : Char) (a b : List Char) (h : sep ∉ a) :
    splitChars sep (a ++ sep :: b) = a :: splitChars sep b := by
  induction a with
  | nil => simp [splitChars]
  | cons c cs ih =>
    have hc : c ≠ sep := fun e => h (by simp [e])
    have hcs : sep ∉ cs := fun e => h (by simp [e])
    simp [splitChars, hc, ih hcs]

theorem splitComma_append_comma (store rest : String) (h : ',' ∉ store.data) :
    splitComma (store ++ "," ++ rest) = store :: splitComma rest := by
  have : (store ++ "," ++ rest).data = store.data ++ ',' :: rest.data := by
    simp [String.data_append]
  simp [splitComma, this, splitChars_append_sep _ _ _ h]

theorem splitComma_of_not_mem (s : String) (h : ',' ∉ s.data) : splitComma s = [s] := by
  simp [splitComma, splitChars_of_not_mem _ _ h]

theorem locatorFields_append_comma (store rest : String) (h : ',' ∉ store.data) :
    locatorFields (store ++ "," ++ rest) = some (store, (splitComma rest).headD "") := by
  have hne : splitComma rest ≠ [] := by
    simp [splitComma, splitChars_ne_nil]
  rw [locatorFields, splitComma_append_comma _ _ h]
  cases hr : splitComma rest with
  | nil => exact absurd hr hne
  | cons f fs => simp

theorem locatorFields_store_key (store key : String) (hs : ',' ∉ store.data)
    (hk : ',' ∉ key.data) : locatorFields (store ++ "," ++ key) = some (store, key) := by
  rw [locatorFields_append_comma _ _ hs, splitComma_of_not_mem _ hk]
  rfl

/-! ## The locator codec (C2, C3) -/

/-- C2: for a store identifier and a key without `','`, the string `store,key` that
`handlerUploadVideo` persists splits back into exactly `(store, key)`, and these are the
bucket and key `dbVideoToSignedVideo` asks a presigned URL for. -/
theorem locator_roundtrip (env : Env) (video : Video) (w : World) (store key : String)
    (hs : ',' ∉ store.data) (hk : ',' ∉ key.data) :
    locatorFields (store ++ "," ++ key) = some (store, key) ∧
    (∀ filePrefix fileKeyStr, key = filePrefix ++ "/" ++ fileKeyStr →
      sprintfVideoURL store filePrefix fileKeyStr = store ++ "," ++ key) ∧
    (dbVideoToSignedVideo env { video with videoURL := some (store ++ "," ++ key) } w).1.log =
      w.log ++ [.presignGetObject store key] := by
  have h1 := locatorFields_store_key store key hs hk
  refine ⟨h1, ?_, ?_⟩
  · intro filePrefix fileKeyStr hkey
    simp [sprintfVideoURL, hkey, String.append_assoc]
  · simp only [dbVideoToSignedVideo, h1]
    cases env.generatePresignedURL store key <;> simp [World.emit]

theorem locator_roundtrip_witness :
    locatorFields ("tube-private-12345" ++ "," ++ "portrait/vertical.mp4") =
        some ("tube-private-12345", "portrait/vertical.mp4") ∧
    (∀ filePrefix fileKeyStr, "portrait/vertical.mp4" = filePrefix ++ "/" ++ fileKeyStr →
      sprintfVideoURL "tube-private-12345" filePrefix fileKeyStr =
        "tube-private-12345" ++ "," ++ "portrait/vertical.mp4") ∧
    (dbVideoToSignedVideo demoEnv
        { (⟨1, 7, none, none⟩ : Video) with
          videoURL := some ("tube-private-12345" ++ "," ++ "portrait/vertical.mp4") }
        demoWorld).1.log =
      demoWorld.log ++ [.presignGetObject "tube-private-12345" "portrait/vertical.mp4"] :=
  locator_roundtrip demoEnv ⟨1, 7, none, none⟩ demoWorld "tube-private-12345"
    "portrait/vertical.mp4" (by decide) (by decide)

/-- C3, as stated, fails: a stored string without `','` makes `dbVideoToSignedVideo` panic
(no error value is returned), and a stored string with three fields is decoded without any
error into its first two fields. -/
theorem locator_malformed_counterexample :
    (',' ∉ "abc".data ∧
      dbVideoToSignedVideo demoEnv ⟨1, 7, some "abc", none⟩ demoWorld =
        (demoWorld, .panic)) ∧
    ((splitComma "a,b,c").length = 3 ∧
      locatorFields "a,b,c" = some ("a", "b") ∧
      (dbVideoToSignedVideo demoEnv ⟨1, 7, some "a,b,c", none⟩ demoWorld).2 =
        .ok ⟨1, 7, some "https://a/b?signed", none⟩) := by
  decide

/-- C3, amended: a stored string that splits on `','` into more than two fields raises no
format error and does not make `dbVideoToSignedVideo` panic: fields 0 and 1 are taken as
`(store, key)`, the other fields are ignored, the presign request is made for that pair, a
successful request gives the video back with the signed URL, and the only error the function
returns is that of the presign request. -/
theorem locator_malformed_amended (env : Env) (video : Video) (w : World) (url : String)
    (h : 2 < (splitComma url).length) :
    ∃ bucket key, (splitComma url).get? 0 = some bucket ∧ (splitComma url).get? 1 = some key ∧
      locatorFields url = some (bucket, key) ∧
      (dbVideoToSignedVideo env { video with videoURL := some url } w).1.log =
        w.log ++ [.presignGetObject bucket key] ∧
      (dbVideoToSignedVideo env { video with videoURL := some url } w).2 ≠ .panic ∧
      (∀ signed, env.generatePresignedURL bucket key = some signed →
        (dbVideoToSignedVideo env { video with videoURL := some url } w).2 =
          .ok { video with videoURL := some signed }) ∧
      (∀ msg, (dbVideoToSignedVideo env { video with videoURL := some url } w).2 = .error msg →
        env.generatePresignedURL bucket key = none) := by
  match hsp : splitComma url, h with
  | bucket :: key :: rest, _ =>
    have h1 : locatorFields url = some (bucket, key) := by
      simp [locatorFields, hsp]
    refine ⟨bucket, key, by simp, by simp, h1, ?_, ?_, ?_, ?_⟩
    · simp only [dbVideoToSignedVideo, h1]
      cases env.generatePresignedURL bucket key <;> simp [World.emit]
    · simp only [dbVideoToSignedVideo, h1]
      cases env.generatePresignedURL bucket key <;> simp
    · intro signed hs
      simp only [dbVideoToSignedVideo, h1, hs]
    · intro msg
      simp only [dbVideoToSignedVideo, h1]
      cases env.generatePresignedURL bucket key <;> simp

/-- Witness of C3 (amended): the stored string `a,b,c`, which has three fields. -/
theorem locator_malformed_amended_witness :
    2 < (splitComma "a,b,c").length ∧
    ∃ bucket key, (splitComma "a,b,c").get? 0 = some bucket ∧
      (splitComma "a,b,c").get? 1 = some key ∧
      locatorFields "a,b,c" = some (bucket, key) ∧
      (dbVideoToSignedVideo demoEnv
        { (⟨1, 7, none, none⟩ : Video) with videoURL := some "a,b,c" } demoWorld).1.log =
        demoWorld.log ++ [.presignGetObject bucket key] ∧
      (dbVideoToSignedVideo demoEnv
        { (⟨1, 7, none, none⟩ : Video) with videoURL := some "a,b,c" } demoWorld).2 ≠ .panic ∧
      (∀ signed, demoEnv.generatePresignedURL bucket key = some signed →
        (dbVideoToSignedVideo demoEnv
          { (⟨1, 7, none, none⟩ : Video) with videoURL := some "a,b,c" } demoWorld).2 =
          .ok { (⟨1, 7, none, none⟩ : Video) with videoURL := some signed }) ∧
      (∀ msg, (dbVideoToSignedVideo demoEnv
          { (⟨1, 7, none, none⟩ : Video) with videoURL := some "a,b,c" } demoWorld).2 =
          .error msg →
        demoEnv.generatePresignedURL bucket key = none) :=
  ⟨by decide, locator_malformed_amended demoEnv ⟨1, 7, none, none⟩ demoWorld "a,b,c"
    (by decide)⟩

/-! ## Errors of `getVideoAspectRatio` (C10) -/

theorem classifyRatio_mem (width height : Int) :
    classifyRatio width height = "16:9" ∨ classifyRatio width height = "9:16" ∨
      classifyRatio width height = "other" := by
  unfold classifyRatio
  dsimp only
  split
  · exact Or.inl rfl
  · split
    · exact Or.inr (Or.inl rfl)
    · exact Or.inr (Or.inr rfl)

/-- C10: on a parsed probe output `getVideoAspectRatio` returns an error exactly when the
stream list is empty or the first stream has width 0 or height 0; otherwise it returns one of
`"16:9"`, `"9:16"`, `"other"` without error, a result that depends on the first stream
only (negative dimensions included). -/
theorem getVideoAspectRatio_error_iff (streams : List Stream) :
    ((∃ e, getVideoAspectRatio (.parsed streams) = .error e) ↔
      (streams = [] ∨ ∃ s rest, streams = s :: rest ∧ (s.width = 0 ∨ s.height = 0))) ∧
    ((∃ e, getVideoAspectRatio (.parsed streams) = .error e) ∨
      getVideoAspectRatio (.parsed streams) = .ok "16:9" ∨
      getVideoAspectRatio (.parsed streams) = .ok "9:16" ∨
      getVideoAspectRatio (.parsed streams) = .ok "other") ∧
    (∀ s rest, streams = s :: rest →
      getVideoAspectRatio (.parsed streams) = getVideoAspectRatio (.parsed [s])) := by
  cases streams with
  | nil => simp [getVideoAspectRatio]
  | cons s rest =>
    by_cases h : s.width = 0 ∨ s.height = 0
    · simp [getVideoAspectRatio, h]
    · have hc := classifyRatio_mem s.width s.height
      simp only [getVideoAspectRatio, h, if_false]
      refine ⟨?_, ?_, ?_⟩
      · simp [h]
      · rcases hc with hc | hc | hc <;> simp [hc]
      · intro s' rest' he
        simp only [List.cons.injEq] at he
        obtain ⟨rfl, -⟩ := he
        simp [h]

/-! ## Rejected requests (C6) -/

/-- C6: a request whose parsed media type is not `video/mp4`, or whose video record belongs to
another user than the authenticated one, gets an error response and nothing else happens: the
log gains only the response (after the read of the record, when that is reached), and the
files, the object store and the video table are unchanged. -/
theorem handlerUploadVideo_rejects (env : Env) (w : World)
    (h : env.mediaType ≠ some "video/mp4" ∨
      ∃ videoID userID video, env.videoID = some videoID ∧ env.userID = some userID ∧
        dbGetVideo w videoID = some video ∧ video.userID ≠ userID) :
    ∃ code msg, 400 ≤ code ∧
      ((handlerUploadVideo env w).log = w.log ++ [.respondWithError code msg] ∨
        ∃ videoID, (handlerUploadVideo env w).log =
          w.log ++ [.getVideo videoID, .respondWithError code msg]) ∧
      (handlerUploadVideo env w).files = w.files ∧
      (handlerUploadVideo env w).objects = w.objects ∧
      (handlerUploadVideo env w).db = w.db := by
  unfold handlerUploadVideo
  cases hv : env.videoID with
  | none => exact ⟨400, _, by decide, Or.inl rfl, rfl, rfl, rfl⟩
  | some videoID =>
  cases hb : env.bearerToken with
  | none => exact ⟨401, _, by decide, Or.inl rfl, rfl, rfl, rfl⟩
  | some token =>
  cases hu : env.userID with
  | none => exact ⟨401, _, by decide, Or.inl rfl, rfl, rfl, rfl⟩
  | some userID =>
  by_cases hf : env.formFile = true
  swap
  · simp only [hf, not_false_eq_true, if_true]
    exact ⟨400, _, by decide, Or.inl rfl, rfl, rfl, rfl⟩
  cases hm : env.mediaType with
  | none =>
    simp only [hf, not_true_eq_false, if_false]
    exact ⟨400, _, by decide, Or.inl rfl, rfl, rfl, rfl⟩
  | some mediaType =>
  by_cases hmp : mediaType = "video/mp4"
  swap
  · simp only [hf, not_true_eq_false, if_false, ne_eq, hmp, not_false_eq_true, if_true]
    exact ⟨400, _, by decide, Or.inl rfl, rfl, rfl, rfl⟩
  subst hmp
  rcases h with h | ⟨videoID', userID', video, h1, h2, h3, h4⟩
  · exact absurd hm h
  · rw [hv] at h1
    rw [hu] at h2
    cases h1
    cases h2
    have hg : dbGetVideo (w.emit (.getVideo videoID)) videoID = some video := h3
    simp only [hf, not_true_eq_false, if_false, ne_eq, not_true_eq_false, hg, h4,
      not_false_eq_true, if_true]
    exact ⟨401, "You are not authorized to upload a video for this user", by decide,
      Or.inr ⟨videoID, by simp [respondWithError, World.emit]⟩, rfl, rfl, rfl⟩

/-! ## Every execution is a run -/

theorem uploadAndRecord_ok (env : Env) (video : Video) (mediaType filePrefix : String)
    (fileKey : Fin 16 → Byte) (hr : env.randBytes = some fileKey)
    (hput : env.putObjectOk = true) :
    ∃ tail, ((locatorFields (sprintfVideoURL env.s3Bucket filePrefix
            (fileKeyString (List.ofFn fileKey))) = none ∧ tail = [.panicked]) ∨
        ∃ bucket key, locatorFields (sprintfVideoURL env.s3Bucket filePrefix
            (fileKeyString (List.ofFn fileKey))) = some (bucket, key) ∧
          (tail = [.presignGetObject bucket key,
              .respondWithError 500 "Couldn't get signed video"] ∨
            ∃ signed, env.generatePresignedURL bucket key = some signed ∧
              tail = [.presignGetObject bucket key, .respondWithJSON 200
                { video with videoURL := some signed }])) ∧
      ∀ w, uploadAndRecord env video mediaType filePrefix w =
        { files := w.files
          db := if env.updateOk then
              w.db.map (fun v => if v.id = video.id then
                { video with videoURL := some (sprintfVideoURL env.s3Bucket filePrefix
                  (fileKeyString (List.ofFn fileKey))) } else v)
            else w.db
          objects := (env.s3Bucket,
            filePrefix ++ "/" ++ fileKeyString (List.ofFn fileKey)) :: w.objects
          log := w.log ++ ([.randRead,
            .putObject env.s3Bucket
              (filePrefix ++ "/" ++ fileKeyString (List.ofFn fileKey)) mediaType,
            .updateVideo { video with videoURL := some (sprintfVideoURL env.s3Bucket
              filePrefix (fileKeyString (List.ofFn fileKey))) }] ++ tail) } := by
  cases hl : locatorFields (sprintfVideoURL env.s3Bucket filePrefix
      (fileKeyString (List.ofFn fileKey))) with
  | none =>
    refine ⟨[.panicked], Or.inl ⟨rfl, rfl⟩, fun w => ?_⟩
    simp [uploadAndRecord, dbVideoToSignedVideo, dbUpdateVideo, hr, hput, hl, World.emit,
      -List.ofFn_succ]
  | some p =>
    obtain ⟨bucket, key⟩ := p
    cases hs : env.generatePresignedURL bucket key with
    | none =>
      refine ⟨[.presignGetObject bucket key, .respondWithError 500 "Couldn't get signed video"],
        Or.inr ⟨bucket, key, rfl, Or.inl rfl⟩, fun w => ?_⟩
      simp [uploadAndRecord, dbVideoToSignedVideo, dbUpdateVideo, hr, hput, hl, hs, World.emit,
        respondWithError, -List.ofFn_succ]
    | some signed =>
      refine ⟨[.presignGetObject bucket key, .respondWithJSON 200
        { video with videoURL := some signed }],
        Or.inr ⟨bucket, key, rfl, Or.inr ⟨signed, hs, rfl⟩⟩, fun w => ?_⟩
      simp [uploadAndRecord, dbVideoToSignedVideo, dbUpdateVideo, hr, hput, hl, hs, World.emit,
        respondWithJSON, -List.ofFn_succ]

theorem handlerUploadVideo_run (env : Env) (w : World) : Run env w (handlerUploadVideo env w) := by
  cases hv : env.videoID with
  | none => simpa [handlerUploadVideo, hv, respondWithError, World.emit] using Run.invalidID hv
  | some videoID =>
  cases hb : env.bearerToken with
  | none =>
    simpa [handlerUploadVideo, hv, hb, respondWithError, World.emit] using Run.noToken videoID hv hb
  | some token =>
  cases hu : env.userID with
  | none =>
    simpa [handlerUploadVideo, hv, hb, hu, respondWithError, World.emit]
      using Run.badToken videoID hv hu
  | some userID =>
  cases hf : env.formFile with
  | false =>
    simpa [handlerUploadVideo, hv, hb, hu, hf, respondWithError, World.emit]
      using Run.noFormFile hf
  | true =>
  by_cases hm : env.mediaType = some "video/mp4"
  swap
  · have := Run.badMediaType (w := w) hm
    cases hm' : env.mediaType with
    | none => simpa [handlerUploadVideo, hv, hb, hu, hf, hm', respondWithError, World.emit] using this
    | some mt =>
      have hne : mt ≠ "video/mp4" := fun e => hm (by rw [hm', e])
      simpa [handlerUploadVideo, hv, hb, hu, hf, hm', hne, respondWithError, World.emit] using this
  have hget : ∀ f o l, dbGetVideo { files := f, db := w.db, objects := o, log := l } videoID =
      dbGetVideo w videoID := fun _ _ _ => rfl
  cases hg : dbGetVideo w videoID with
  | none =>
    simpa [handlerUploadVideo, hv, hb, hu, hf, hm, hget, hg, respondWithError, World.emit]
      using Run.noVideo videoID hv hg
  | some video =>
  by_cases ho : video.userID = userID
  swap
  · simpa [handlerUploadVideo, hv, hb, hu, hf, hm, hget, hg, ho, respondWithError, World.emit]
      using Run.notOwner videoID userID video hv hu hg ho
  cases ht : env.createTemp with
  | none =>
    simpa [handlerUploadVideo, hv, hb, hu, hf, hm, hget, hg, ho, ht, respondWithError, World.emit]
      using Run.noTemp videoID userID video hv hu hm hg ho ht
  | some temp =>
  cases hc : env.copyOk with
  | false =>
    simpa [handlerUploadVideo, stageAndProcess, osRemove, closeFile, hv, hb, hu, hf, hm, hget,
      hg, ho, ht, hc, respondWithError, World.emit]
      using Run.copyFailed videoID userID video temp hv hu hm hg ho ht hc
  | true =>
  cases hx : env.ffmpegExitOk with
  | false =>
    have := Run.remuxFailed videoID userID video temp hv hu hm hg ho ht hc hx
    cases hw : env.ffmpegWroteOutput <;>
    simpa [handlerUploadVideo, stageAndProcess, processVideoForFastStart, osRemove, closeFile,
      hv, hb, hu, hf, hm, hget, hg, ho, ht, hc, hx, hw, respondWithError, World.emit]
      using this
  | true =>
  cases hp : getVideoAspectRatio env.probe with
  | error e =>
    have := Run.probeFailed videoID userID video temp e hv hu hm hg ho ht hc hx hp
    cases hw : env.ffmpegWroteOutput <;>
    simpa [handlerUploadVideo, stageAndProcess, processVideoForFastStart, classifyAndUpload,
      osRemove, closeFile,
      hv, hb, hu, hf, hm, hget, hg, ho, ht, hc, hx, hw, hp, respondWithError, World.emit]
      using this
  | ok aspectRatio =>
  cases hop : env.openOk with
  | false =>
    have := Run.openFailed videoID userID video temp aspectRatio hv hu hm hg ho ht hc hx hp hop
    cases hw : env.ffmpegWroteOutput <;>
    simpa [handlerUploadVideo, stageAndProcess, processVideoForFastStart, classifyAndUpload,
      osRemove, closeFile,
      hv, hb, hu, hf, hm, hget, hg, ho, ht, hc, hx, hw, hp, hop, respondWithError, World.emit]
      using this
  | true =>
  cases hr : env.randBytes with
  | none =>
    have := Run.randFailed videoID userID video temp aspectRatio hv hu hm hg ho ht hc hx hp
      hop hr
    cases hw : env.ffmpegWroteOutput <;>
    simpa [handlerUploadVideo, stageAndProcess, processVideoForFastStart, classifyAndUpload,
      uploadAndRecord, osRemove, closeFile,
      hv, hb, hu, hf, hm, hget, hg, ho, ht, hc, hx, hw, hp, hop, hr, respondWithError,
      World.emit] using this
  | some fileKey =>
  cases hput : env.putObjectOk with
  | false =>
    have := Run.putFailed videoID userID video temp aspectRatio fileKey hv hu hm hg ho ht hc
      hx hp hop hr hput
    cases hw : env.ffmpegWroteOutput <;>
    simpa [handlerUploadVideo, stageAndProcess, processVideoForFastStart, classifyAndUpload,
      uploadAndRecord, osRemove, closeFile, -List.ofFn_succ,
      hv, hb, hu, hf, hm, hget, hg, ho, ht, hc, hx, hw, hp, hop, hr, hput, respondWithError,
      World.emit] using this
  | true =>
    obtain ⟨tail, htail, hU⟩ := uploadAndRecord_ok env video "video/mp4"
      (filePrefixOf aspectRatio) fileKey hr hput
    have := Run.uploaded (w := w) videoID userID video temp aspectRatio fileKey tail hv hu hm
      hg ho ht hc hx hp hop hr hput htail
    cases hw : env.ffmpegWroteOutput <;>
    simpa [handlerUploadVideo, stageAndProcess, processVideoForFastStart, classifyAndUpload,
      hU, osRemove, closeFile, -List.ofFn_succ,
      hv, hb, hu, hf, hm, hget, hg, ho, ht, hc, hx, hw, hp, hop, respondWithError,
      World.emit] using this

/-! ## The metadata update comes after the upload (C4) -/

theorem eq_of_append_cons_eq {α : Type} (P : α → Prop) (a a' : α) (ha' : P a') :
    ∀ (A B pre post : List α), (∀ e ∈ A, ¬ P e) → (∀ e ∈ B, ¬ P e) →
      A ++ a :: B = pre ++ a' :: post → pre = A ∧ a' = a ∧ post = B := by
  intro A
  induction A with
  | nil =>
    intro B pre post _ hB h
    cases pre with
    | nil =>
      simp only [List.nil_append, List.cons.injEq] at h
      exact ⟨rfl, h.1.symm, h.2.symm⟩
    | cons p pre =>
      simp only [List.nil_append, List.cons_append, List.cons.injEq] at h
      have : a' ∈ B := by rw [h.2]; simp
      exact absurd ha' (hB a' this)
  | cons x A ih =>
    intro B pre post hA hB h
    cases pre with
    | nil =>
      simp only [List.nil_append, List.cons_append, List.cons.injEq] at h
      exact absurd (h.1 ▸ ha') (hA x (by simp))
    | cons p pre =>
      simp only [List.cons_append, List.cons.injEq] at h
      obtain ⟨h1, h2, h3⟩ := ih B pre post (fun e he => hA e (by simp [he])) hB h.2
      exact ⟨by rw [h.1, h1], h2, h3⟩

/-- C4: in every execution of `handlerUploadVideo`, an `UpdateVideo` call comes after a
`PutObject` call that returned without error, for the object the written location names;
and when the content-type check, the owner check, the staging, the remux, the
classification, the key generation or the upload fails, `UpdateVideo` is not called and the
video table is unchanged. -/
theorem updateVideo_only_after_putObject (env : Env) (w : World) :
    ∃ new, (handlerUploadVideo env w).log = w.log ++ new ∧
      (∀ pre video post, new = pre ++ Event.updateVideo video :: post →
        env.putObjectOk = true ∧
        ∃ key, Event.putObject env.s3Bucket key "video/mp4" ∈ pre ∧
          (env.s3Bucket, key) ∈ (handlerUploadVideo env w).objects ∧
          video.videoURL = some (env.s3Bucket ++ "," ++ key)) ∧
      ((env.mediaType ≠ some "video/mp4" ∨
          (∃ videoID userID video, env.videoID = some videoID ∧ env.userID = some userID ∧
            dbGetVideo w videoID = some video ∧ video.userID ≠ userID) ∨
          env.createTemp = none ∨ env.copyOk = false ∨ env.ffmpegExitOk = false ∨
          (∃ e, getVideoAspectRatio env.probe = .error e) ∨
          env.randBytes = none ∨ env.putObjectOk = false) →
        (∀ video, Event.updateVideo video ∉ new) ∧ (handlerUploadVideo env w).db = w.db) := by
  have hrun := handlerUploadVideo_run env w
  generalize handlerUploadVideo env w = w' at hrun ⊢
  have hno : ∀ (new : List Event), (∀ video, Event.updateVideo video ∉ new) →
      ∀ pre video post, new = pre ++ Event.updateVideo video :: post →
        env.putObjectOk = true ∧
        ∃ key, Event.putObject env.s3Bucket key "video/mp4" ∈ pre ∧
          (env.s3Bucket, key) ∈ w'.objects ∧
          video.videoURL = some (env.s3Bucket ++ "," ++ key) := by
    intro new hnew pre video post h
    exact absurd (by rw [h]; simp) (hnew video)
  cases hrun with
  | uploaded videoID userID video temp aspectRatio fileKey tail hv hu hm hg ho ht hc hx hp hop
      hr hput htail =>
    have htl : ∀ e ∈ tail ++ [Event.closeFile (temp ++ ".processing.mp4"),
        Event.removeFile (temp ++ ".processing.mp4"), Event.closeFile temp,
        Event.removeFile temp], ¬ (∃ v, e = Event.updateVideo v) := by
      intro e he
      rcases htail with ⟨-, rfl⟩ | ⟨bucket, key, -, rfl | ⟨signed, -, rfl⟩⟩ <;>
        · simp at he
          rintro ⟨v, rfl⟩
          simp at he
    refine ⟨_, rfl, ?_, ?_⟩
    · intro pre v post h
      have h' : [Event.getVideo videoID, Event.createTemp temp, Event.copyToTemp temp,
          Event.runFfmpeg temp (temp ++ ".processing.mp4"),
          Event.runFfprobe (temp ++ ".processing.mp4"),
          Event.openFile (temp ++ ".processing.mp4"), Event.randRead,
          Event.putObject env.s3Bucket
            (filePrefixOf aspectRatio ++ "/" ++ fileKeyString (List.ofFn fileKey)) "video/mp4"] ++
          Event.updateVideo { video with videoURL := some (sprintfVideoURL env.s3Bucket
            (filePrefixOf aspectRatio) (fileKeyString (List.ofFn fileKey))) } ::
          (tail ++ [Event.closeFile (temp ++ ".processing.mp4"),
            Event.removeFile (temp ++ ".processing.mp4"), Event.closeFile temp,
            Event.removeFile temp]) = pre ++ Event.updateVideo v :: post := by
        rw [← h]
        simp [-List.ofFn_succ]
      obtain ⟨h1, h2, -⟩ := eq_of_append_cons_eq (fun e => ∃ v, e = Event.updateVideo v) _ _
        ⟨v, rfl⟩ _ _ _ _ (by simp [-List.ofFn_succ]) htl h'
      subst h1
      cases h2
      refine ⟨hput, filePrefixOf aspectRatio ++ "/" ++ fileKeyString (List.ofFn fileKey),
        by simp [-List.ofFn_succ], by simp [-List.ofFn_succ], ?_⟩
      simp [sprintfVideoURL, String.append_assoc, -List.ofFn_succ]
    · intro hfail
      exfalso
      rcases hfail with h | ⟨videoID', userID', video', h1, h2, h3, h4⟩ | h | h | h | ⟨e, h⟩ |
        h | h
      · exact h hm
      · rw [hv] at h1
        rw [hu] at h2
        cases h1
        cases h2
        rw [hg] at h3
        cases h3
        exact h4 ho
      · rw [ht] at h
        cases h
      · rw [hc] at h
        cases h
      · rw [hx] at h
        cases h
      · rw [hp] at h
        cases h
      · rw [hr] at h
        cases h
      · rw [hput] at h
        cases h
  | _ =>
    refine ⟨_, rfl, hno _ (by simp [-List.ofFn_succ]), fun _ => ⟨by simp [-List.ofFn_succ], rfl⟩⟩

/-! ## Removal of the staged file (C5) -/

/-- C5: in every execution of `handlerUploadVideo` that has created the staged temp file, that
file is no longer present when the handler returns; in particular after a failed remux, and
after a failed upload, where the processed file is gone as well, `UpdateVideo` has not been
called, and the video table and the object store are unchanged. -/
theorem staged_file_removed (env : Env) (w : World) :
    ∃ new, (handlerUploadVideo env w).log = w.log ++ new ∧
      (∀ temp, Event.createTemp temp ∈ new → temp ∉ (handlerUploadVideo env w).files) ∧
      (∀ temp out, Event.runFfmpeg temp out ∈ new → env.ffmpegExitOk = false →
        Event.createTemp temp ∈ new ∧ temp ∉ (handlerUploadVideo env w).files) ∧
      (∀ bucket key contentType, Event.putObject bucket key contentType ∈ new →
        env.putObjectOk = false →
        ∃ temp, Event.createTemp temp ∈ new ∧
          Event.runFfmpeg temp (temp ++ ".processing.mp4") ∈ new ∧
          temp ∉ (handlerUploadVideo env w).files ∧
          temp ++ ".processing.mp4" ∉ (handlerUploadVideo env w).files ∧
          (∀ video, Event.updateVideo video ∉ new) ∧
          (handlerUploadVideo env w).db = w.db ∧
          (handlerUploadVideo env w).objects = w.objects) := by
  have hrun := handlerUploadVideo_run env w
  generalize handlerUploadVideo env w = w' at hrun ⊢
  cases hrun with
  | uploaded videoID userID video temp aspectRatio fileKey tail hv hu hm hg ho ht hc hx hp hop
      hr hput htail =>
    refine ⟨_, rfl, ?_, ?_, ?_⟩
    · intro t ht'
      have : t = temp := by
        rcases htail with ⟨-, rfl⟩ | ⟨bucket, key, -, rfl | ⟨signed, -, rfl⟩⟩ <;>
          simpa [-List.ofFn_succ] using ht'
      subst this
      simp [List.mem_filter]
    · intro t out _ hx'
      rw [hx] at hx'
      cases hx'
    · intro b k ct _ hput'
      rw [hput] at hput'
      cases hput'
  | putFailed videoID userID video temp aspectRatio fileKey hv hu hm hg ho ht hc hx hp hop
      hr hput =>
    refine ⟨_, rfl, ?_, ?_, ?_⟩
    · intro t ht'
      have : t = temp := by simpa [-List.ofFn_succ] using ht'
      subst this
      simp [List.mem_filter]
    · intro t out _ hx'
      rw [hx] at hx'
      cases hx'
    · intro b k ct _ _
      exact ⟨temp, by simp [-List.ofFn_succ], by simp [-List.ofFn_succ],
        by simp [List.mem_filter], by simp [List.mem_filter],
        by simp [-List.ofFn_succ], rfl, rfl⟩
  | remuxFailed videoID userID video temp hv hu hm hg ho ht hc hx =>
    refine ⟨_, rfl, ?_, ?_, ?_⟩
    · intro t ht'
      have : t = temp := by simpa using ht'
      subst this
      simp [List.mem_filter]
    · intro t out hmem _
      have : t = temp := by
        have := hmem
        simp at this
        exact this.1
      subst this
      exact ⟨by simp, by simp [List.mem_filter]⟩
    · intro b k ct hmem
      simp at hmem
  | _ =>
    refine ⟨_, rfl, ?_, ?_, ?_⟩
    · intro t ht'
      first
        | (simp at ht'; done)
        | (simp at ht'
           subst ht'
           simp [List.mem_filter])
    · intro t out hmem hx'
      first
        | (simp at hmem; done)
        | (rw [‹env.ffmpegExitOk = true›] at hx'; cases hx')
    · intro b k ct hmem
      simp at hmem

/-- Witness of C6: the request of `demoEnv` declared as `video/avi` is rejected with nothing
done. -/
theorem handlerUploadVideo_rejects_witness :
    ∃ code msg, 400 ≤ code ∧
      ((handlerUploadVideo { demoEnv with mediaType := some "video/avi" } demoWorld).log =
          demoWorld.log ++ [.respondWithError code msg] ∨
        ∃ videoID, (handlerUploadVideo { demoEnv with mediaType := some "video/avi" }
          demoWorld).log = demoWorld.log ++ [.getVideo videoID, .respondWithError code msg]) ∧
      (handlerUploadVideo { demoEnv with mediaType := some "video/avi" } demoWorld).files =
        demoWorld.files ∧
      (handlerUploadVideo { demoEnv with mediaType := some "video/avi" } demoWorld).objects =
        demoWorld.objects ∧
      (handlerUploadVideo { demoEnv with mediaType := some "video/avi" } demoWorld).db =
        demoWorld.db :=
  handlerUploadVideo_rejects { demoEnv with mediaType := some "video/avi" } demoWorld
    (Or.inl (by decide))

/-! ## The output of a failed remux (C9) -/

set_option maxRecDepth 100000 in
/-- C9 fails on the code: when `ffmpeg` exits with a failure after it has created its output
file, `handlerUploadVideo` returns with `<staged path>.processing.mp4` still present (the
deferred removal of the processed file is registered only after a successful remux), whereas
the same request with a successful remux leaves no file behind. -/
theorem remux_output_left_behind :
    (handlerUploadVideo { demoEnv with ffmpegExitOk := false } demoWorld).files =
        ["/tmp/tubely-upload.mp4123.processing.mp4"] ∧
    (handlerUploadVideo { demoEnv with ffmpegExitOk := false } demoWorld).log =
        [.getVideo 1, .createTemp "/tmp/tubely-upload.mp4123",
          .copyToTemp "/tmp/tubely-upload.mp4123",
          .runFfmpeg "/tmp/tubely-upload.mp4123" "/tmp/tubely-upload.mp4123.processing.mp4",
          .respondWithError 500 "Couldn't process video",
          .closeFile "/tmp/tubely-upload.mp4123", .removeFile "/tmp/tubely-upload.mp4123"] ∧
    (handlerUploadVideo demoEnv demoWorld).files = [] := by
  decide

/-! ## The object key (C7) -/

set_option maxRecDepth 100000 in
theorem decodeChar_encodeChar : ∀ v, v < 64 → decodeChar (encodeChar v) = v := by
  decide

set_option maxRecDepth 100000 in
theorem isKeyChar_encodeChar : ∀ v, v < 64 → isKeyChar (encodeChar v) = true := by
  decide

theorem decodeChar_encodeChar_mod (x : Nat) : decodeChar (encodeChar (x % 64)) = x % 64 :=
  decodeChar_encodeChar (x % 64) (Nat.mod_lt x (by decide))

theorem isKeyChar_encodeChar_mod (x : Nat) : isKeyChar (encodeChar (x % 64)) = true :=
  isKeyChar_encodeChar (x % 64) (Nat.mod_lt x (by decide))

theorem rawURLDecode_encode (b : List Byte) : rawURLDecode (rawURLEncode b) = b := by
  induction b using rawURLEncode.induct with
  | case1 b0 b1 b2 rest ih =>
    have h0 := b0.isLt
    have h1 := b1.isLt
    have h2 := b2.isLt
    simp only [rawURLEncode, rawURLDecode, ih]
    simp only [decodeChar_encodeChar_mod]
    congr 1
    · apply Fin.ext
      simp only
      omega
    congr 1
    · apply Fin.ext
      simp only
      omega
    congr 1
    · apply Fin.ext
      simp only
      omega
  | case2 b0 b1 =>
    have h0 := b0.isLt
    have h1 := b1.isLt
    simp only [rawURLEncode, rawURLDecode]
    simp only [decodeChar_encodeChar_mod]
    congr 1
    · apply Fin.ext
      simp only
      omega
    congr 1
    · apply Fin.ext
      simp only
      omega
  | case3 b0 =>
    have h0 := b0.isLt
    simp only [rawURLEncode, rawURLDecode]
    simp only [decodeChar_encodeChar_mod]
    congr 1
    · apply Fin.ext
      simp only
      omega
  | case4 => rfl

theorem rawURLEncode_length (b : List Byte) :
    (rawURLEncode b).length = (b.length * 4 + 2) / 3 := by
  induction b using rawURLEncode.induct with
  | case1 b0 b1 b2 rest ih =>
    simp only [rawURLEncode, List.length_cons, ih]
    omega
  | case2 b0 b1 => simp [rawURLEncode]
  | case3 b0 => simp [rawURLEncode]
  | case4 => rfl

theorem rawURLEncode_isKeyChar (b : List Byte) :
    ∀ c ∈ rawURLEncode b, isKeyChar c = true := by
  induction b using rawURLEncode.induct with
  | case1 b0 b1 b2 rest ih =>
    intro c hc
    simp only [rawURLEncode, List.mem_cons] at hc
    rcases hc with rfl | rfl | rfl | rfl | hc
    · exact isKeyChar_encodeChar_mod _
    · exact isKeyChar_encodeChar_mod _
    · exact isKeyChar_encodeChar_mod _
    · exact isKeyChar_encodeChar_mod _
    · exact ih c hc
  | case2 b0 b1 =>
    intro c hc
    simp only [rawURLEncode, List.mem_cons, List.mem_singleton] at hc
    rcases hc with rfl | rfl | rfl | hc
    · exact isKeyChar_encodeChar_mod _
    · exact isKeyChar_encodeChar_mod _
    · exact isKeyChar_encodeChar_mod _
    · cases hc
  | case3 b0 =>
    intro c hc
    simp only [rawURLEncode, List.mem_cons, List.mem_singleton] at hc
    rcases hc with rfl | rfl | hc
    · exact isKeyChar_encodeChar_mod _
    · exact isKeyChar_encodeChar_mod _
    · cases hc
  | case4 => intro c hc; cases hc

theorem rawURLEncode_eq_spec (b : List Byte) : rawURLEncode b = base64URLSpec b := by
  induction b using rawURLEncode.induct with
  | case1 b0 b1 b2 rest ih =>
    have h0 := b0.isLt
    have h1 := b1.isLt
    have h2 := b2.isLt
    have e : base64URLSpec (b0 :: b1 :: b2 :: rest) =
        encodeChar (32 * (b0.val / 128 % 2) + 16 * (b0.val / 64 % 2) + 8 * (b0.val / 32 % 2) +
          4 * (b0.val / 16 % 2) + 2 * (b0.val / 8 % 2) + b0.val / 4 % 2) ::
        encodeChar (32 * (b0.val / 2 % 2) + 16 * (b0.val % 2) + 8 * (b1.val / 128 % 2) +
          4 * (b1.val / 64 % 2) + 2 * (b1.val / 32 % 2) + b1.val / 16 % 2) ::
        encodeChar (32 * (b1.val / 8 % 2) + 16 * (b1.val / 4 % 2) + 8 * (b1.val / 2 % 2) +
          4 * (b1.val % 2) + 2 * (b2.val / 128 % 2) + b2.val / 64 % 2) ::
        encodeChar (32 * (b2.val / 32 % 2) + 16 * (b2.val / 16 % 2) + 8 * (b2.val / 8 % 2) +
          4 * (b2.val / 4 % 2) + 2 * (b2.val / 2 % 2) + b2.val % 2) ::
        base64URLSpec rest := by
      simp [base64URLSpec, bitsOf, byteBits, sextets]
    rw [e, ← ih]
    simp only [rawURLEncode]
    congr 2
    · omega
    congr 2
    · omega
    congr 2
    · omega
    congr 2
    · omega
  | case2 b0 b1 =>
    have h0 := b0.isLt
    have h1 := b1.isLt
    simp only [rawURLEncode, base64URLSpec, bitsOf, byteBits, sextets,
      List.cons_append, List.nil_append, List.append_nil, List.map_cons, List.map_nil]
    congr 2
    · omega
    congr 2
    · omega
    congr 2
    · omega
  | case3 b0 =>
    have h0 := b0.isLt
    simp only [rawURLEncode, base64URLSpec, bitsOf, byteBits, sextets,
      List.cons_append, List.nil_append, List.append_nil, List.map_cons, List.map_nil]
    congr 2
    · omega
    congr 2
    · omega
  | case4 => rfl

theorem rawURLEncode_injective (b b' : List Byte) (h : rawURLEncode b = rawURLEncode b') :
    b = b' := by
  rw [← rawURLDecode_encode b, h, rawURLDecode_encode]

theorem fileKeyString_data (b : List Byte) :
    (fileKeyString b).data = rawURLEncode b ++ ['.', 'm', 'p', '4'] := by
  simp [fileKeyString, String.data_append]

/-- C7: the key built from 16 bytes is their padding-free URL-safe base64 encoding (the
six-bit groups of the input bits, written in the URL-safe alphabet) followed by `.mp4`: 22
characters among `A`–`Z`, `a`–`z`, `0`–`9`, `-`, `_`, then the extension; the encoding can be
decoded back, so two different 16-byte sequences never give the same key. -/
theorem fileKeyString_spec (b : List Byte) (hb : b.length = 16) :
    fileKeyString b = String.mk (base64URLSpec b) ++ ".mp4" ∧
    (base64URLSpec b).length = 22 ∧
    (fileKeyString b).length = 26 ∧
    (∀ c ∈ base64URLSpec b, isKeyChar c = true) ∧
    rawURLDecode (base64URLSpec b) = b ∧
    (∀ b' : List Byte, b'.length = 16 → fileKeyString b' = fileKeyString b → b' = b) := by
  have hlen : (rawURLEncode b).length = 22 := by rw [rawURLEncode_length, hb]
  rw [← rawURLEncode_eq_spec]
  refine ⟨rfl, hlen, ?_, rawURLEncode_isKeyChar b, rawURLDecode_encode b, ?_⟩
  · simp [String.length, fileKeyString_data, hlen]
  · intro b' _ h
    have h' := congrArg String.data h
    rw [fileKeyString_data, fileKeyString_data] at h'
    exact rawURLEncode_injective _ _ (List.append_cancel_right h')

/-- Witness of C7: the bytes 0, 1, …, 14, 250. -/
theorem fileKeyString_spec_witness :
    fileKeyString [0, 1, 2, 3, 4, 5, 6, 7, 8, 9, 10, 11, 12, 13, 14, 250] =
      "AAECAwQFBgcICQoLDA0O-g.mp4" ∧
    fileKeyString [0, 1, 2, 3, 4, 5, 6, 7, 8, 9, 10, 11, 12, 13, 14, 250] =
      String.mk (base64URLSpec [0, 1, 2, 3, 4, 5, 6, 7, 8, 9, 10, 11, 12, 13, 14, 250]) ++
        ".mp4" :=
  ⟨by decide,
    (fileKeyString_spec [0, 1, 2, 3, 4, 5, 6, 7, 8, 9, 10, 11, 12, 13, 14, 250] (by decide)).1⟩

/-! ## The persisted string decodes to the uploaded object (C8) -/

theorem filePrefixOf_mem (aspectRatio : String) :
    filePrefixOf aspectRatio = "landscape" ∨ filePrefixOf aspectRatio = "portrait" ∨
      filePrefixOf aspectRatio = "other" := by
  unfold filePrefixOf
  split
  · exact Or.inl rfl
  · split
    · exact Or.inr (Or.inl rfl)
    · exact Or.inr (Or.inr rfl)

theorem getVideoAspectRatio_1280_720 :
    getVideoAspectRatio (.parsed [⟨1280, 720⟩]) = .ok "16:9" := by
  have h : classifyRatio 1280 720 = "16:9" := by decide
  simp [getVideoAspectRatio, h]

theorem comma_not_mem_rawURLEncode (b : List Byte) : ',' ∉ rawURLEncode b := by
  intro h
  have := rawURLEncode_isKeyChar b ',' h
  exact absurd this (by decide)

theorem comma_not_mem_objectKey (aspectRatio : String) (b : List Byte) :
    ',' ∉ (filePrefixOf aspectRatio ++ "/" ++ fileKeyString b).data := by
  have hb := comma_not_mem_rawURLEncode b
  rcases filePrefixOf_mem aspectRatio with h | h | h <;>
    · rw [h]
      simp only [String.data_append, fileKeyString_data, List.mem_append, not_or]
      exact ⟨⟨by decide, by decide⟩, hb, by decide⟩

/-- C8: for a bucket name without `','`, any 16 key bytes and any classification result, the
string `handlerUploadVideo` persists is `<bucket>,<prefix>/<key>` with the prefix one of
`landscape`, `portrait`, `other`; `dbVideoToSignedVideo` decodes it to the bucket and the
object key that were given to `PutObject`, a key ending in `.mp4`; and a probe reporting one
1280x720 stream gives the prefix `landscape`. -/
theorem persisted_locator_decodes (env : Env) (video : Video) (mediaType aspectRatio : String)
    (w : World) (fileKey : Fin 16 → Byte) (hs : ',' ∉ env.s3Bucket.data)
    (hr : env.randBytes = some fileKey) (hput : env.putObjectOk = true) :
    (filePrefixOf aspectRatio = "landscape" ∨ filePrefixOf aspectRatio = "portrait" ∨
      filePrefixOf aspectRatio = "other") ∧
    sprintfVideoURL env.s3Bucket (filePrefixOf aspectRatio) (fileKeyString (List.ofFn fileKey)) =
      env.s3Bucket ++ "," ++
        (filePrefixOf aspectRatio ++ "/" ++ fileKeyString (List.ofFn fileKey)) ∧
    locatorFields (sprintfVideoURL env.s3Bucket (filePrefixOf aspectRatio)
        (fileKeyString (List.ofFn fileKey))) =
      some (env.s3Bucket, filePrefixOf aspectRatio ++ "/" ++ fileKeyString (List.ofFn fileKey)) ∧
    (∃ stem, filePrefixOf aspectRatio ++ "/" ++ fileKeyString (List.ofFn fileKey) =
      stem ++ ".mp4") ∧
    (∃ tail, (uploadAndRecord env video mediaType (filePrefixOf aspectRatio) w).log =
      w.log ++ [.randRead,
        .putObject env.s3Bucket
          (filePrefixOf aspectRatio ++ "/" ++ fileKeyString (List.ofFn fileKey)) mediaType,
        .updateVideo { video with videoURL := some (env.s3Bucket ++ "," ++
          (filePrefixOf aspectRatio ++ "/" ++ fileKeyString (List.ofFn fileKey))) },
        .presignGetObject env.s3Bucket
          (filePrefixOf aspectRatio ++ "/" ++ fileKeyString (List.ofFn fileKey))] ++ tail) ∧
    getVideoAspectRatio (.parsed [⟨1280, 720⟩]) = .ok "16:9" ∧
    filePrefixOf "16:9" = "landscape" := by
  have hurl : sprintfVideoURL env.s3Bucket (filePrefixOf aspectRatio)
      (fileKeyString (List.ofFn fileKey)) = env.s3Bucket ++ "," ++
        (filePrefixOf aspectRatio ++ "/" ++ fileKeyString (List.ofFn fileKey)) := by
    simp only [sprintfVideoURL, String.append_assoc]
  have hdec := locatorFields_store_key env.s3Bucket
    (filePrefixOf aspectRatio ++ "/" ++ fileKeyString (List.ofFn fileKey)) hs
    (comma_not_mem_objectKey aspectRatio (List.ofFn fileKey))
  refine ⟨filePrefixOf_mem aspectRatio, hurl, by rw [hurl, hdec], ?_, ?_,
    getVideoAspectRatio_1280_720, by decide⟩
  · exact ⟨filePrefixOf aspectRatio ++ "/" ++ String.mk (rawURLEncode (List.ofFn fileKey)), by
      simp only [fileKeyString, String.append_assoc]⟩
  · obtain ⟨tail, htail, hU⟩ := uploadAndRecord_ok env video mediaType (filePrefixOf aspectRatio)
      fileKey hr hput
    rw [hU w, hurl]
    rw [hurl, hdec] at htail
    rcases htail with ⟨h, -⟩ | ⟨bucket, key, h, rfl | ⟨signed, -, rfl⟩⟩
    · cases h
    · simp only [Option.some.injEq, Prod.mk.injEq] at h
      obtain ⟨rfl, rfl⟩ := h
      exact ⟨[.respondWithError 500 "Couldn't get signed video"], by simp [-List.ofFn_succ]⟩
    · simp only [Option.some.injEq, Prod.mk.injEq] at h
      obtain ⟨rfl, rfl⟩ := h
      exact ⟨[.respondWithJSON 200 { video with videoURL := some signed }],
        by simp [-List.ofFn_succ]⟩

/-! ## Rounding error of the float64 operations -/

theorem roundHalfEven_err (n d : Nat) (hd : 0 < d) :
    |((roundHalfEven n d : Nat) : ℚ) - (n : ℚ) / d| ≤ 1 / 2 := by
  have hdq : (0 : ℚ) < d := by exact_mod_cast hd
  have hn : (n : ℚ) = d * (n / d : Nat) + (n % d : Nat) := by
    exact_mod_cast (Nat.div_add_mod n d).symm
  have hr : ((n % d : Nat) : ℚ) < d := by exact_mod_cast Nat.mod_lt n hd
  have hr0 : (0 : ℚ) ≤ ((n % d : Nat) : ℚ) := by positivity
  have hx : (n : ℚ) / d = (n / d : Nat) + ((n % d : Nat) : ℚ) / d := by
    field_simp
    linarith
  rw [hx]
  unfold roundHalfEven
  dsimp only
  split_ifs with h1 h2 h3
  · have h1' : 2 * ((n % d : Nat) : ℚ) < d := by exact_mod_cast h1
    have : ((n % d : Nat) : ℚ) / d ≤ 1 / 2 := by
      rw [div_le_iff₀ hdq]; linarith
    have h0 : 0 ≤ ((n % d : Nat) : ℚ) / d := by positivity
    rw [abs_le]; constructor <;> linarith
  · have h2' : (d : ℚ) < 2 * ((n % d : Nat) : ℚ) := by exact_mod_cast h2
    have : 1 / 2 ≤ ((n % d : Nat) : ℚ) / d := by
      rw [le_div_iff₀ hdq]; linarith
    have h1 : ((n % d : Nat) : ℚ) / d ≤ 1 := by
      rw [div_le_iff₀ hdq]; linarith
    rw [abs_le]; push_cast; constructor <;> linarith
  · have he : 2 * (n % d) = d := by omega
    have he' : 2 * ((n % d : Nat) : ℚ) = d := by exact_mod_cast he
    have : ((n % d : Nat) : ℚ) / d = 1 / 2 := by
      rw [div_eq_iff (ne_of_gt hdq)]; linarith
    rw [abs_le]; constructor <;> linarith
  · have he : 2 * (n % d) = d := by omega
    have he' : 2 * ((n % d : Nat) : ℚ) = d := by exact_mod_cast he
    have : ((n % d : Nat) : ℚ) / d = 1 / 2 := by
      rw [div_eq_iff (ne_of_gt hdq)]; linarith
    rw [abs_le]; push_cast; constructor <;> linarith

theorem log2Fuel_bounds : ∀ (fuel n : Nat), n ≤ fuel → 0 < n →
    2 ^ log2Fuel fuel n ≤ n ∧ n < 2 ^ (log2Fuel fuel n + 1) := by
  intro fuel
  induction fuel with
  | zero => intro n h h0; omega
  | succ fuel ih =>
    intro n h h0
    unfold log2Fuel
    split_ifs with h2
    · have : n = 1 := by omega
      subst this
      simp
    · have h3 := ih (n / 2) (by omega) (by omega)
      obtain ⟨ha, hb⟩ := h3
      rw [pow_succ, pow_succ]
      constructor <;> omega

theorem ilog2_bounds (n : Nat) (h : 0 < n) : 2 ^ ilog2 n ≤ n ∧ n < 2 ^ (ilog2 n + 1) :=
  log2Fuel_bounds n n (le_refl n) h

theorem binExponent_le (n d : Nat) (hn : 0 < n) (hd : 0 < d) :
    (2 : ℚ) ^ binExponent n d ≤ (n : ℚ) / d := by
  have hdq : (0 : ℚ) < d := by exact_mod_cast hd
  obtain ⟨hn1, -⟩ := ilog2_bounds n hn
  obtain ⟨-, hd2⟩ := ilog2_bounds d hd
  have hn1' : (2 : ℚ) ^ ilog2 n ≤ n := by exact_mod_cast hn1
  have hd2' : (d : ℚ) < 2 ^ (ilog2 d + 1) := by exact_mod_cast hd2
  rw [le_div_iff₀ hdq]
  have hlow : (2 : ℚ) ^ ((ilog2 n : Int) - (ilog2 d : Int) - 1) * d ≤ n := by
    have he : (ilog2 n : Int) - ilog2 d - 1 = (ilog2 n : Int) - ((ilog2 d + 1 : Nat) : Int) := by
      push_cast; ring
    rw [he, zpow_sub₀ (by norm_num), zpow_natCast, zpow_natCast]
    have hp : (0 : ℚ) < 2 ^ (ilog2 d + 1) := by positivity
    rw [div_mul_eq_mul_div, div_le_iff₀ hp]
    have hn0 : (0 : ℚ) ≤ 2 ^ ilog2 n := by positivity
    nlinarith
  unfold binExponent
  dsimp only
  by_cases hc : 0 ≤ (ilog2 n : Int) - (ilog2 d : Int)
  · simp only [hc, if_true]
    split_ifs with h1
    · have : (((ilog2 n : Int) - (ilog2 d : Int)).toNat : Int) = (ilog2 n : Int) - ilog2 d :=
        Int.toNat_of_nonneg hc
      rw [← this, zpow_natCast]
      exact_mod_cast h1
    · exact hlow
  · simp only [hc, if_false]
    split_ifs with h3
    · have hneg : ((-((ilog2 n : Int) - (ilog2 d : Int))).toNat : Int) =
          -((ilog2 n : Int) - ilog2 d) := Int.toNat_of_nonneg (by omega)
      have he : (ilog2 n : Int) - ilog2 d =
          -((-((ilog2 n : Int) - (ilog2 d : Int))).toNat : Int) := by
        omega
      rw [he, zpow_neg, zpow_natCast]
      have h3' : (d : ℚ) ≤ 2 ^ (-((ilog2 n : Int) - (ilog2 d : Int))).toNat * n := by
        exact_mod_cast h3
      have hp : (0 : ℚ) < 2 ^ (-((ilog2 n : Int) - (ilog2 d : Int))).toNat := by positivity
      rw [inv_mul_le_iff₀ hp]
      exact h3'
    · exact hlow

theorem f64OfFrac_err (neg : Bool) (n d : Nat) (hd : 0 < d) :
    |(f64OfFrac neg n d).toRat - (if neg then -1 else 1) * ((n : ℚ) / d)| ≤
      (n : ℚ) / d * (1 / 2 ^ 53) := by
  have hdq : (0 : ℚ) < d := by exact_mod_cast hd
  by_cases hn : n = 0
  · subst hn
    simp [f64OfFrac, F64.toRat]
  have hn0 : 0 < n := Nat.pos_of_ne_zero hn
  have hexp := binExponent_le n d hn0 hd
  -- the scaled value and its rounding
  have key : ∃ m : Nat, (f64OfFrac neg n d) =
      ⟨if neg then -(m : Int) else (m : Int), -(52 - binExponent n d)⟩ ∧
      |(m : ℚ) * (2 : ℚ) ^ (-(52 - binExponent n d)) - (n : ℚ) / d| ≤
        (2 : ℚ) ^ (-(52 - binExponent n d)) / 2 := by
    by_cases hk : 0 ≤ 52 - binExponent n d
    · obtain ⟨K, hK⟩ := Int.eq_ofNat_of_zero_le hk
      refine ⟨roundHalfEven (n * 2 ^ K) d, ?_, ?_⟩
      · simp [f64OfFrac, hn, hK]
      · have hr := roundHalfEven_err (n * 2 ^ K) d hd
        rw [hK, zpow_neg, zpow_natCast]
        have hp : (0 : ℚ) < 2 ^ K := by positivity
        have e1 : ((roundHalfEven (n * 2 ^ K) d : Nat) : ℚ) * ((2 : ℚ) ^ K)⁻¹ - (n : ℚ) / d =
            (((roundHalfEven (n * 2 ^ K) d : Nat) : ℚ) - ((n * 2 ^ K : Nat) : ℚ) / d) *
              ((2 : ℚ) ^ K)⁻¹ := by
          push_cast
          field_simp
          ring
        rw [e1, abs_mul, abs_of_pos (inv_pos.mpr hp)]
        have := mul_le_mul_of_nonneg_right hr (le_of_lt (inv_pos.mpr hp))
        linarith
    · obtain ⟨K, hK⟩ := Int.eq_ofNat_of_zero_le (show 0 ≤ -(52 - binExponent n d) by omega)
      have hK' : 52 - binExponent n d = -(K : Int) := by omega
      refine ⟨roundHalfEven n (d * 2 ^ K), ?_, ?_⟩
      · have hneg : ¬ (0 : Int) ≤ -(K : Int) := by omega
        simp [f64OfFrac, hn, hK', hneg]
      · have hp : (0 : ℚ) < 2 ^ K := by positivity
        have hr := roundHalfEven_err n (d * 2 ^ K) (Nat.mul_pos hd (by positivity))
        rw [hK, zpow_natCast]
        have e1 : ((roundHalfEven n (d * 2 ^ K) : Nat) : ℚ) * (2 : ℚ) ^ K - (n : ℚ) / d =
            (((roundHalfEven n (d * 2 ^ K) : Nat) : ℚ) - (n : ℚ) / ((d * 2 ^ K : Nat) : ℚ)) *
              (2 : ℚ) ^ K := by
          push_cast
          field_simp
          ring
        rw [e1, abs_mul, abs_of_pos hp]
        have := mul_le_mul_of_nonneg_right hr (le_of_lt hp)
        linarith
  obtain ⟨m, hm, herr⟩ := key
  have hP : (0 : ℚ) < (2 : ℚ) ^ (-(52 - binExponent n d)) := by positivity
  have hscale : (2 : ℚ) ^ (-(52 - binExponent n d)) / 2 ≤ (n : ℚ) / d * (1 / 2 ^ 53) := by
    have : (2 : ℚ) ^ (-(52 - binExponent n d)) / 2 =
        (2 : ℚ) ^ binExponent n d * (1 / 2 ^ 53) := by
      rw [neg_sub, zpow_sub₀ (by norm_num)]
      norm_num
      ring
    rw [this]
    exact mul_le_mul_of_nonneg_right hexp (by positivity)
  rw [hm]
  cases neg with
  | false =>
    simp only [F64.toRat, Bool.false_eq_true, if_false, one_mul, Int.cast_natCast]
    linarith
  | true =>
    simp only [F64.toRat, if_true, Int.cast_neg, Int.cast_natCast]
    have : -(m : ℚ) * (2 : ℚ) ^ (-(52 - binExponent n d)) - -1 * ((n : ℚ) / d) =
        -((m : ℚ) * (2 : ℚ) ^ (-(52 - binExponent n d)) - (n : ℚ) / d) := by ring
    rw [this, abs_neg]
    linarith

theorem pow2_split (s : Int) :
    (((if 0 ≤ s then 2 ^ s.toNat else 1 : Nat) : ℚ)) /
      (((if 0 ≤ s then 1 else 2 ^ (-s).toNat : Nat) : ℚ)) = (2 : ℚ) ^ s := by
  by_cases hs : 0 ≤ s
  · obtain ⟨K, rfl⟩ := Int.eq_ofNat_of_zero_le hs
    simp
  · obtain ⟨K, hK⟩ := Int.eq_ofNat_of_zero_le (show 0 ≤ -s by omega)
    have hs' : s = -(K : Int) := by omega
    subst hs'
    have hneg : ¬ (0 : Int) ≤ -(K : Int) := hs
    simp [hneg]

theorem pow2_shift (x e : Int) (h : e ≤ x) :
    ((2 : ℚ) ^ (x - e).toNat) * (2 : ℚ) ^ e = (2 : ℚ) ^ x := by
  obtain ⟨K, hK⟩ := Int.eq_ofNat_of_zero_le (show 0 ≤ x - e by omega)
  rw [hK, Int.toNat_natCast, ← zpow_natCast, ← hK, ← zpow_add₀ (by norm_num)]
  congr 1
  ring

theorem F64.ofInt_err (i : Int) :
    |(F64.ofInt i).toRat - (i : ℚ)| ≤ |(i : ℚ)| * (1 / 2 ^ 53) := by
  have h := f64OfFrac_err (decide (i < 0)) i.natAbs 1 (by decide)
  have habs : ((i.natAbs : Nat) : ℚ) = |(i : ℚ)| := by
    rw [Nat.cast_natAbs, Int.cast_abs]
  have hsign : (if decide (i < 0) = true then (-1 : ℚ) else 1) * |(i : ℚ)| = i := by
    by_cases hi : i < 0
    · have : (i : ℚ) < 0 := by exact_mod_cast hi
      simp [hi, abs_of_neg this]
    · have : (0 : ℚ) ≤ i := by exact_mod_cast (not_lt.mp hi)
      simp [hi, abs_of_nonneg this]
  simp only [Nat.cast_one, div_one, habs, hsign] at h
  exact h

theorem F64.div_err (a b : F64) (hb : b.man ≠ 0) :
    |(F64.div a b).toRat - a.toRat / b.toRat| ≤ |a.toRat / b.toRat| * (1 / 2 ^ 53) := by
  have hbm : 0 < b.man.natAbs := Int.natAbs_pos.mpr hb
  have hd : 0 < b.man.natAbs * (if 0 ≤ a.exp - b.exp then 1 else 2 ^ (-(a.exp - b.exp)).toNat) := by
    apply Nat.mul_pos hbm
    split_ifs
    · decide
    · positivity
  have h := f64OfFrac_err (xor (decide (a.man < 0)) (decide (b.man < 0)))
    (a.man.natAbs * (if 0 ≤ a.exp - b.exp then 2 ^ (a.exp - b.exp).toNat else 1))
    (b.man.natAbs * (if 0 ≤ a.exp - b.exp then 1 else 2 ^ (-(a.exp - b.exp)).toNat)) hd
  have hbq : (b.man : ℚ) ≠ 0 := by exact_mod_cast hb
  have hquot : a.toRat / b.toRat = ((a.man : ℚ) / b.man) * (2 : ℚ) ^ (a.exp - b.exp) := by
    simp only [F64.toRat]
    rw [zpow_sub₀ (by norm_num)]
    field_simp
  have hnd : (((a.man.natAbs * (if 0 ≤ a.exp - b.exp then 2 ^ (a.exp - b.exp).toNat else 1) : Nat) : ℚ)) /
      ((b.man.natAbs * (if 0 ≤ a.exp - b.exp then 1 else 2 ^ (-(a.exp - b.exp)).toNat) : Nat) : ℚ) =
      |(a.man : ℚ) / b.man| * (2 : ℚ) ^ (a.exp - b.exp) := by
    rw [Nat.cast_mul, Nat.cast_mul, mul_div_mul_comm, pow2_split, Nat.cast_natAbs,
      Nat.cast_natAbs, Int.cast_abs, Int.cast_abs, abs_div]
  have hpos : (0 : ℚ) < (2 : ℚ) ^ (a.exp - b.exp) := by positivity
  have habs : |a.toRat / b.toRat| = |(a.man : ℚ) / b.man| * (2 : ℚ) ^ (a.exp - b.exp) := by
    rw [hquot, abs_mul, abs_of_pos hpos]
  have hsign : (if xor (decide (a.man < 0)) (decide (b.man < 0)) = true then (-1 : ℚ) else 1) *
      |(a.man : ℚ) / b.man| = (a.man : ℚ) / b.man := by
    have hb' : (b.man : ℚ) < 0 ∨ (0 : ℚ) < b.man := lt_or_gt_of_ne hbq
    by_cases ha : a.man < 0 <;> by_cases hb2 : b.man < 0
    · have h1 : (a.man : ℚ) < 0 := by exact_mod_cast ha
      have h2 : (b.man : ℚ) < 0 := by exact_mod_cast hb2
      simp [ha, hb2, abs_of_pos (div_pos_of_neg_of_neg h1 h2)]
    · have h1 : (a.man : ℚ) < 0 := by exact_mod_cast ha
      have h2 : (0 : ℚ) < b.man := by
        have : 0 < b.man := by omega
        exact_mod_cast this
      simp [ha, hb2, abs_of_neg (div_neg_of_neg_of_pos h1 h2)]
    · have h1 : (0 : ℚ) ≤ a.man := by exact_mod_cast (not_lt.mp ha)
      have h2 : (b.man : ℚ) < 0 := by exact_mod_cast hb2
      simp [ha, hb2, abs_of_nonpos (div_nonpos_of_nonneg_of_nonpos h1 (le_of_lt h2))]
    · have h1 : (0 : ℚ) ≤ a.man := by exact_mod_cast (not_lt.mp ha)
      have h2 : (0 : ℚ) < b.man := by
        have : 0 < b.man := by omega
        exact_mod_cast this
      simp [ha, hb2, abs_of_nonneg (div_nonneg h1 (le_of_lt h2))]
  rw [hnd, ← mul_assoc, hsign, ← hquot, ← habs] at h
  exact h

theorem F64.sub_err (a b : F64) :
    |(F64.sub a b).toRat - (a.toRat - b.toRat)| ≤ |a.toRat - b.toRat| * (1 / 2 ^ 53) := by
  have hd : 0 < (if 0 ≤ min a.exp b.exp then 1 else 2 ^ (-(min a.exp b.exp)).toNat) := by
    split_ifs
    · decide
    · positivity
  have h := f64OfFrac_err
    (decide (a.man * 2 ^ (a.exp - min a.exp b.exp).toNat -
      b.man * 2 ^ (b.exp - min a.exp b.exp).toNat < 0))
    ((a.man * 2 ^ (a.exp - min a.exp b.exp).toNat -
      b.man * 2 ^ (b.exp - min a.exp b.exp).toNat).natAbs *
      (if 0 ≤ min a.exp b.exp then 2 ^ (min a.exp b.exp).toNat else 1))
    (if 0 ≤ min a.exp b.exp then 1 else 2 ^ (-(min a.exp b.exp)).toNat) hd
  have hval : a.toRat - b.toRat =
      (((a.man * 2 ^ (a.exp - min a.exp b.exp).toNat -
        b.man * 2 ^ (b.exp - min a.exp b.exp).toNat : Int)) : ℚ) *
        (2 : ℚ) ^ (min a.exp b.exp) := by
    simp only [F64.toRat]
    push_cast
    rw [sub_mul, mul_assoc, mul_assoc, pow2_shift _ _ (min_le_left _ _),
      pow2_shift _ _ (min_le_right _ _)]
  generalize hv : (a.man * 2 ^ (a.exp - min a.exp b.exp).toNat -
      b.man * 2 ^ (b.exp - min a.exp b.exp).toNat : Int) = v at h hval
  have hpos : (0 : ℚ) < (2 : ℚ) ^ (min a.exp b.exp) := by positivity
  have hnd : (((v.natAbs * (if 0 ≤ min a.exp b.exp then 2 ^ (min a.exp b.exp).toNat else 1) : Nat) : ℚ)) /
      (((if 0 ≤ min a.exp b.exp then 1 else 2 ^ (-(min a.exp b.exp)).toNat : Nat) : ℚ)) =
      |(v : ℚ)| * (2 : ℚ) ^ (min a.exp b.exp) := by
    rw [Nat.cast_mul, mul_div_assoc, pow2_split, Nat.cast_natAbs, Int.cast_abs]
  have habs : |a.toRat - b.toRat| = |(v : ℚ)| * (2 : ℚ) ^ (min a.exp b.exp) := by
    rw [hval, abs_mul, abs_of_pos hpos]
  have hsign : (if decide (v < 0) = true then (-1 : ℚ) else 1) * |(v : ℚ)| = v := by
    by_cases hi : v < 0
    · have : (v : ℚ) < 0 := by exact_mod_cast hi
      simp [hi, abs_of_neg this]
    · have : (0 : ℚ) ≤ v := by exact_mod_cast (not_lt.mp hi)
      simp [hi, abs_of_nonneg this]
  have hsub : F64.sub a b = f64OfFrac (decide (v < 0))
      (v.natAbs * (if 0 ≤ min a.exp b.exp then 2 ^ (min a.exp b.exp).toNat else 1))
      (if 0 ≤ min a.exp b.exp then 1 else 2 ^ (-(min a.exp b.exp)).toNat) := by
    simp only [F64.sub, hv]
  rw [hnd, ← mul_assoc, hsign, ← hval, ← habs, ← hsub] at h
  exact h

theorem F64.toRat_abs (a : F64) : (F64.abs a).toRat = |a.toRat| := by
  have hpos : (0 : ℚ) < (2 : ℚ) ^ a.exp := by positivity
  simp only [F64.abs, F64.toRat, abs_mul, abs_of_pos hpos, Int.natCast_natAbs, Int.cast_abs]

theorem F64.lt_iff (a b : F64) : F64.lt a b = true ↔ a.toRat < b.toRat := by
  have hpos : (0 : ℚ) < (2 : ℚ) ^ (min a.exp b.exp) := by positivity
  have ha : a.toRat = ((a.man * 2 ^ (a.exp - min a.exp b.exp).toNat : Int) : ℚ) *
      (2 : ℚ) ^ (min a.exp b.exp) := by
    simp only [F64.toRat]
    push_cast
    rw [mul_assoc, pow2_shift _ _ (min_le_left _ _)]
  have hb : b.toRat = ((b.man * 2 ^ (b.exp - min a.exp b.exp).toNat : Int) : ℚ) *
      (2 : ℚ) ^ (min a.exp b.exp) := by
    simp only [F64.toRat]
    push_cast
    rw [mul_assoc, pow2_shift _ _ (min_le_right _ _)]
  rw [ha, hb, mul_lt_mul_right hpos]
  simp only [F64.lt, decide_eq_true_eq]
  exact Int.cast_lt.symm

theorem F64.man_ne_zero_of_toRat_ne_zero (a : F64) (h : a.toRat ≠ 0) : a.man ≠ 0 := by
  intro h0
  apply h
  simp [F64.toRat, h0]

theorem quot_err (w h W H : ℚ) (hh : h ≠ 0) (hW : |W - w| ≤ |w| * (1 / 2 ^ 53))
    (hH : |H - h| ≤ |h| * (1 / 2 ^ 53)) :
    H ≠ 0 ∧ |W / H - w / h| ≤ |w / h| * (3 / 2 ^ 53) := by
  have hhp : 0 < |h| := abs_pos.mpr hh
  have hHlow : |h| * (1 - 1 / 2 ^ 53) ≤ |H| := by
    have h1 : |h| - |H| ≤ |h - H| := abs_sub_abs_le_abs_sub h H
    rw [abs_sub_comm] at h1
    linarith
  have hHp : 0 < |H| := by
    have : 0 < |h| * (1 - 1 / 2 ^ 53) := mul_pos hhp (by norm_num)
    linarith
  have hH0 : H ≠ 0 := abs_pos.mp hHp
  refine ⟨hH0, ?_⟩
  have hdiff : W / H - w / h = ((W - w) * h - w * (H - h)) / (H * h) := by
    field_simp
    ring
  have hnum : |(W - w) * h - w * (H - h)| ≤ |w| * |h| * (2 / 2 ^ 53) := by
    have h1 : |(W - w) * h - w * (H - h)| ≤ |(W - w) * h| + |w * (H - h)| := abs_sub _ _
    rw [abs_mul, abs_mul] at h1
    have h2 : |W - w| * |h| ≤ |w| * (1 / 2 ^ 53) * |h| :=
      mul_le_mul_of_nonneg_right hW (abs_nonneg h)
    have h3 : |w| * |H - h| ≤ |w| * (|h| * (1 / 2 ^ 53)) :=
      mul_le_mul_of_nonneg_left hH (abs_nonneg w)
    linarith
  rw [hdiff, abs_div, abs_mul, abs_div, div_le_iff₀ (mul_pos hHp hhp)]
  have hw0 : 0 ≤ |w| := abs_nonneg w
  have e : |w| / |h| * (3 / 2 ^ 53) * (|H| * |h|) = |w| * |H| * (3 / 2 ^ 53) := by
    field_simp
    ring
  rw [e]
  have h4 : |w| * (|h| * (1 - 1 / 2 ^ 53)) ≤ |w| * |H| := mul_le_mul_of_nonneg_left hHlow hw0
  have h5 : 0 ≤ |w| * |h| := mul_nonneg hw0 (le_of_lt hhp)
  nlinarith

theorem ratio_err (w h : Int) (hh : h ≠ 0) :
    |(F64.div (F64.ofInt w) (F64.ofInt h)).toRat - (w : ℚ) / h| ≤ |(w : ℚ) / h| * (5 / 2 ^ 53) := by
  have hhq : (h : ℚ) ≠ 0 := by exact_mod_cast hh
  obtain ⟨hH0, hq⟩ := quot_err w h _ _ hhq (F64.ofInt_err w) (F64.ofInt_err h)
  have hd := F64.div_err (F64.ofInt w) (F64.ofInt h) (F64.man_ne_zero_of_toRat_ne_zero _ hH0)
  generalize (F64.div (F64.ofInt w) (F64.ofInt h)).toRat = R at hd ⊢
  generalize (F64.ofInt w).toRat / (F64.ofInt h).toRat = Q at hd hq
  have h1 : |R - (w : ℚ) / h| ≤ |R - Q| + |Q - (w : ℚ) / h| := abs_sub_le _ _ _
  have h2 : |Q| ≤ |(w : ℚ) / h| + |Q - (w : ℚ) / h| := by
    have := abs_sub_abs_le_abs_sub Q ((w : ℚ) / h)
    linarith
  have h3 : 0 ≤ |(w : ℚ) / h| := abs_nonneg _
  have h4 : 0 ≤ |Q - (w : ℚ) / h| := abs_nonneg _
  nlinarith

theorem tolerance_bounds :
    1 / 100 - 1 / 100 * (1 / 2 ^ 53) ≤ tolerance.toRat ∧
      tolerance.toRat ≤ 1 / 100 + 1 / 100 * (1 / 2 ^ 53) := by
  have h := f64OfFrac_err false 1 100 (by decide)
  simp only [Bool.false_eq_true, if_false, one_mul, Nat.cast_one, Nat.cast_ofNat] at h
  have := abs_le.mp h
  unfold tolerance
  constructor <;> linarith [this.1, this.2]

theorem band_arith (R C S T x c0 : ℚ) (hR : |R - x| ≤ |x| * (5 / 2 ^ 53))
    (hC : |C - c0| ≤ 2 / 2 ^ 53) (h0 : 0 ≤ c0) (h2 : c0 ≤ 2)
    (hS : |S - (R - C)| ≤ |R - C| * (1 / 2 ^ 53))
    (hT1 : 1 / 100 - 1 / 100 * (1 / 2 ^ 53) ≤ T) (hT2 : T ≤ 1 / 100 + 1 / 100 * (1 / 2 ^ 53)) :
    (|x - c0| ≤ 1 / 100 - 1 / 10 ^ 14 → |S| < T) ∧
    (1 / 100 + 1 / 10 ^ 14 ≤ |x - c0| → T ≤ |S|) := by
  have hX : |x| ≤ |x - c0| + c0 := by
    have h1 : |x| ≤ |x - c0| + |c0| := by
      have := abs_add (x - c0) c0
      simpa using this
    rwa [abs_of_nonneg h0] at h1
  have hX0 : 0 ≤ |x| := abs_nonneg x
  obtain ⟨hC1, hC2⟩ := abs_le.mp hC
  obtain ⟨hR1, hR2⟩ := abs_le.mp hR
  obtain ⟨hS1, hS2⟩ := abs_le.mp hS
  constructor
  · intro hx
    obtain ⟨hx1, hx2⟩ := abs_le.mp hx
    have hD : |R - C| ≤ 1 / 100 - 1 / 10 ^ 14 + 13 / 2 ^ 53 := by
      rw [abs_le]
      constructor <;> linarith
    have hD0 : 0 ≤ |R - C| := abs_nonneg _
    rw [abs_lt]
    constructor <;> linarith [neg_abs_le (R - C), le_abs_self (R - C)]
  · intro hx
    rcases le_abs.mp hx with hpos | hneg
    · -- x - c0 is large and positive
      have hxpos : 0 ≤ x := by linarith
      rw [abs_of_nonneg hxpos] at hR1 hR2 hX
      have hRC : 1 / 100 + 1 / 10 ^ 14 - 20 / 2 ^ 53 ≤ R - C := by linarith
      have hRC0 : 0 ≤ R - C := by linarith
      rw [abs_of_nonneg hRC0] at hS1
      have hSlow : T ≤ S := by linarith
      exact le_trans hSlow (le_abs_self S)
    · -- x - c0 is large and negative
      have hxc : |x - c0| = -(x - c0) := abs_of_nonpos (by linarith)
      rw [hxc] at hX
      have hRC : R - C ≤ -(1 / 100 + 1 / 10 ^ 14 - 20 / 2 ^ 53) := by linarith
      have hRC0 : R - C ≤ 0 := by linarith
      rw [abs_of_nonpos hRC0] at hS2
      have hSlow : S ≤ -T := by linarith
      have := neg_abs_le S
      linarith [neg_le_abs S]

theorem band_test (r c : F64) (x c0 : ℚ) (hR : |r.toRat - x| ≤ |x| * (5 / 2 ^ 53))
    (hC : |c.toRat - c0| ≤ 2 / 2 ^ 53) (h0 : 0 ≤ c0) (h2 : c0 ≤ 2) :
    (|x - c0| ≤ 1 / 100 - 1 / 10 ^ 14 →
      F64.lt (F64.abs (F64.sub r c)) tolerance = true) ∧
    (1 / 100 + 1 / 10 ^ 14 ≤ |x - c0| →
      F64.lt (F64.abs (F64.sub r c)) tolerance = false) := by
  obtain ⟨hT1, hT2⟩ := tolerance_bounds
  obtain ⟨h1, h2'⟩ := band_arith r.toRat c.toRat (F64.sub r c).toRat tolerance.toRat x c0 hR hC
    h0 h2 (F64.sub_err r c) hT1 hT2
  constructor
  · intro hx
    rw [F64.lt_iff, F64.toRat_abs]
    exact h1 hx
  · intro hx
    rw [Bool.eq_false_iff, Ne, F64.lt_iff, F64.toRat_abs, not_lt]
    exact h2' hx

theorem const_16_9_err : |(f64OfFrac false 16 9).toRat - 16 / 9| ≤ 2 / 2 ^ 53 := by
  have h := f64OfFrac_err false 16 9 (by decide)
  simp only [Bool.false_eq_true, if_false, one_mul, Nat.cast_ofNat] at h
  refine le_trans h ?_
  norm_num

theorem const_9_16_err : |(f64OfFrac false 9 16).toRat - 9 / 16| ≤ 2 / 2 ^ 53 := by
  have h := f64OfFrac_err false 9 16 (by decide)
  simp only [Bool.false_eq_true, if_false, one_mul, Nat.cast_ofNat] at h
  refine le_trans h ?_
  norm_num

theorem classifyRatio_bands (w h : Int) (hh : h ≠ 0) :
    (|(w : ℚ) / h - 16 / 9| ≤ 1 / 100 - 1 / 10 ^ 14 → classifyRatio w h = "16:9") ∧
    (|(w : ℚ) / h - 9 / 16| ≤ 1 / 100 - 1 / 10 ^ 14 → classifyRatio w h = "9:16") ∧
    (1 / 100 + 1 / 10 ^ 14 ≤ |(w : ℚ) / h - 16 / 9| →
      1 / 100 + 1 / 10 ^ 14 ≤ |(w : ℚ) / h - 9 / 16| → classifyRatio w h = "other") := by
  have hr := ratio_err w h hh
  obtain ⟨a1, a2⟩ := band_test _ _ _ (16 / 9) hr const_16_9_err (by norm_num) (by norm_num)
  obtain ⟨b1, b2⟩ := band_test _ _ _ (9 / 16) hr const_9_16_err (by norm_num) (by norm_num)
  refine ⟨fun hx => ?_, fun hx => ?_, fun hx hy => ?_⟩
  · simp only [classifyRatio, a1 hx, if_true]
  · have hfar : 1 / 100 + 1 / 10 ^ 14 ≤ |(w : ℚ) / h - 16 / 9| := by
      obtain ⟨h1, h2⟩ := abs_le.mp hx
      have : (w : ℚ) / h - 16 / 9 ≤ -(1 / 100 + 1 / 10 ^ 14) := by
        norm_num at h2 ⊢
        linarith
      exact le_trans (by linarith) (neg_le_abs _)
    simp only [classifyRatio, a2 hfar, b1 hx, if_true, Bool.false_eq_true, if_false]
  · simp only [classifyRatio, a2 hx, b2 hy, Bool.false_eq_true, if_false]

/-! ## Exact classification for bounded dimensions -/

theorem roundHalfEven_scale (n d c : Nat) (hc : 0 < c) :
    roundHalfEven (n * c) (d * c) = roundHalfEven n d := by
  unfold roundHalfEven
  dsimp only
  rw [Nat.mul_div_mul_right n d hc, Nat.mul_mod_mul_right]
  have h1 : (2 * (n % d * c) < d * c) ↔ (2 * (n % d) < d) := by
    rw [← Nat.mul_assoc]
    exact Nat.mul_lt_mul_right hc
  have h2 : (d * c < 2 * (n % d * c)) ↔ (d < 2 * (n % d)) := by
    rw [← Nat.mul_assoc]
    exact Nat.mul_lt_mul_right hc
  simp only [h1, h2]

theorem roundHalfEven_congr (n d n' d' : Nat) (hd : 0 < d) (hd' : 0 < d') (e : n * d' = n' * d) :
    roundHalfEven n d = roundHalfEven n' d' := by
  rw [← roundHalfEven_scale n d d' hd', ← roundHalfEven_scale n' d' d hd, e, Nat.mul_comm d d']

theorem binExponent_lt (n d : Nat) (hn : 0 < n) (hd : 0 < d) :
    (n : ℚ) / d < (2 : ℚ) ^ (binExponent n d + 1) := by
  have hdq : (0 : ℚ) < d := by exact_mod_cast hd
  obtain ⟨-, hn2⟩ := ilog2_bounds n hn
  obtain ⟨hd1, -⟩ := ilog2_bounds d hd
  have hn2' : (n : ℚ) < 2 ^ (ilog2 n + 1) := by exact_mod_cast hn2
  have hd1' : (2 : ℚ) ^ ilog2 d ≤ d := by exact_mod_cast hd1
  rw [div_lt_iff₀ hdq]
  have hhigh : (n : ℚ) < (2 : ℚ) ^ ((ilog2 n : Int) - (ilog2 d : Int) + 1) * d := by
    have he : (ilog2 n : Int) - ilog2 d + 1 = ((ilog2 n + 1 : Nat) : Int) - (ilog2 d : Int) := by
      push_cast; ring
    rw [he, zpow_sub₀ (by norm_num), zpow_natCast, zpow_natCast]
    have hp : (0 : ℚ) < 2 ^ ilog2 d := by positivity
    rw [div_mul_eq_mul_div, lt_div_iff₀ hp]
    have hn0 : (0 : ℚ) < 2 ^ (ilog2 n + 1) := by positivity
    nlinarith
  unfold binExponent
  dsimp only
  by_cases hc : 0 ≤ (ilog2 n : Int) - (ilog2 d : Int)
  · simp only [hc, if_true]
    split_ifs with h1
    · exact hhigh
    · obtain ⟨K, hK⟩ := Int.eq_ofNat_of_zero_le hc
      rw [hK] at h1 ⊢
      simp only [Int.toNat_natCast] at h1
      have h1' : (n : ℚ) < 2 ^ K * d := by exact_mod_cast (not_le.mp h1)
      simpa [zpow_natCast] using h1'
  · simp only [hc, if_false]
    split_ifs with h3
    · exact hhigh
    · obtain ⟨K, hK⟩ := Int.eq_ofNat_of_zero_le
        (show 0 ≤ -((ilog2 n : Int) - (ilog2 d : Int)) by omega)
      have hK' : (ilog2 n : Int) - (ilog2 d : Int) = -(K : Int) := by omega
      rw [hK'] at h3 ⊢
      simp only [neg_neg, Int.toNat_natCast] at h3
      have h3' : 2 ^ K * (n : ℚ) < d := by exact_mod_cast (not_le.mp h3)
      have hp : (0 : ℚ) < 2 ^ K := by positivity
      simp only [sub_add_cancel, zpow_neg, zpow_natCast]
      rw [lt_inv_mul_iff₀ hp]
      exact h3'

theorem binExponent_congr (n d n' d' : Nat) (hn : 0 < n) (hd : 0 < d) (hd' : 0 < d')
    (e : n * d' = n' * d) : binExponent n d = binExponent n' d' := by
  have hn' : 0 < n' := by
    rcases Nat.eq_zero_or_pos n' with h | h
    · subst h
      have : n * d' = 0 := by simpa using e
      rcases Nat.mul_eq_zero.mp this with h | h <;> omega
    · exact h
  have hq : (n : ℚ) / d = (n' : ℚ) / d' := by
    have hdq : (d : ℚ) ≠ 0 := by exact_mod_cast (Nat.pos_iff_ne_zero.mp hd)
    have hdq' : (d' : ℚ) ≠ 0 := by exact_mod_cast (Nat.pos_iff_ne_zero.mp hd')
    rw [div_eq_div_iff hdq hdq']
    exact_mod_cast e
  have a1 := binExponent_le n d hn hd
  have a2 := binExponent_lt n d hn hd
  have b1 := binExponent_le n' d' hn' hd'
  have b2 := binExponent_lt n' d' hn' hd'
  rw [hq] at a1 a2
  have c1 : (2 : ℚ) ^ binExponent n d < (2 : ℚ) ^ (binExponent n' d' + 1) := lt_of_le_of_lt a1 b2
  have c2 : (2 : ℚ) ^ binExponent n' d' < (2 : ℚ) ^ (binExponent n d + 1) := lt_of_le_of_lt b1 a2
  rw [zpow_lt_zpow_iff_right₀ (by norm_num)] at c1 c2
  omega

theorem f64OfFrac_congr (neg : Bool) (n d n' d' : Nat) (hd : 0 < d) (hd' : 0 < d')
    (e : n * d' = n' * d) : f64OfFrac neg n d = f64OfFrac neg n' d' := by
  by_cases hn : n = 0
  · subst hn
    have : n' = 0 := by
      have : n' * d = 0 := by simpa using e.symm
      rcases Nat.mul_eq_zero.mp this with h | h
      · exact h
      · omega
    subst this
    simp [f64OfFrac]
  have hn0 : 0 < n := Nat.pos_of_ne_zero hn
  have hn' : n' ≠ 0 := by
    rintro rfl
    have : n * d' = 0 := by simpa using e
    rcases Nat.mul_eq_zero.mp this with h | h <;> omega
  have hb := binExponent_congr n d n' d' hn0 hd hd' e
  unfold f64OfFrac
  simp only [hn, hn', if_false, hb]
  have hm : (if 0 ≤ 52 - binExponent n' d' then
        roundHalfEven (n * 2 ^ (52 - binExponent n' d').toNat) d
      else roundHalfEven n (d * 2 ^ (-(52 - binExponent n' d')).toNat)) =
      (if 0 ≤ 52 - binExponent n' d' then
        roundHalfEven (n' * 2 ^ (52 - binExponent n' d').toNat) d'
      else roundHalfEven n' (d' * 2 ^ (-(52 - binExponent n' d')).toNat)) := by
    split_ifs
    · apply roundHalfEven_congr _ _ _ _ hd hd'
      calc n * 2 ^ (52 - binExponent n' d').toNat * d'
          = n * d' * 2 ^ (52 - binExponent n' d').toNat := by ring
        _ = n' * d * 2 ^ (52 - binExponent n' d').toNat := by rw [e]
        _ = n' * 2 ^ (52 - binExponent n' d').toNat * d := by ring
    · apply roundHalfEven_congr _ _ _ _ (Nat.mul_pos hd (by positivity))
        (Nat.mul_pos hd' (by positivity))
      calc n * (d' * 2 ^ (-(52 - binExponent n' d')).toNat)
          = n * d' * 2 ^ (-(52 - binExponent n' d')).toNat := by ring
        _ = n' * d * 2 ^ (-(52 - binExponent n' d')).toNat := by rw [e]
        _ = n' * (d * 2 ^ (-(52 - binExponent n' d')).toNat) := by ring
  rw [hm]

theorem roundHalfEven_one (m : Nat) : roundHalfEven m 1 = m := by
  simp [roundHalfEven, Nat.mod_one]

theorem F64.ofInt_exact (i : Int) (hi : i ≠ 0) (hb : i.natAbs < 2 ^ 53) :
    ∃ K : Nat, F64.ofInt i = ⟨i * 2 ^ K, -(K : Int)⟩ := by
  have hn : i.natAbs ≠ 0 := Int.natAbs_ne_zero.mpr hi
  have hn0 : 0 < i.natAbs := Nat.pos_of_ne_zero hn
  have he := binExponent_le i.natAbs 1 hn0 (by decide)
  have he2 : (2 : ℚ) ^ binExponent i.natAbs 1 < (2 : ℚ) ^ (53 : Int) := by
    have : ((i.natAbs : Nat) : ℚ) < 2 ^ 53 := by exact_mod_cast hb
    have h1 : ((i.natAbs : Nat) : ℚ) / ((1 : Nat) : ℚ) = (i.natAbs : ℚ) := by simp
    rw [h1] at he
    calc (2 : ℚ) ^ binExponent i.natAbs 1 ≤ (i.natAbs : ℚ) := he
      _ < 2 ^ 53 := this
      _ = (2 : ℚ) ^ (53 : Int) := by norm_num
  rw [zpow_lt_zpow_iff_right₀ (by norm_num)] at he2
  obtain ⟨K, hK⟩ := Int.eq_ofNat_of_zero_le (show 0 ≤ 52 - binExponent i.natAbs 1 by omega)
  refine ⟨K, ?_⟩
  unfold F64.ofInt f64OfFrac
  simp only [hn, if_false, hK, Int.toNat_natCast, Int.natCast_nonneg, if_true,
    roundHalfEven_one]
  by_cases hneg : i < 0
  · simp only [hneg, decide_True, if_true, F64.mk.injEq, and_true]
    push_cast
    rw [abs_of_neg hneg]
    ring
  · simp only [hneg, decide_False, Bool.false_eq_true, if_false, F64.mk.injEq, and_true]
    push_cast
    rw [abs_of_nonneg (not_lt.mp hneg)]

theorem F64.div_ofInt (w h : Int) (hw : w ≠ 0) (hh : h ≠ 0) (hwb : w.natAbs < 2 ^ 53)
    (hhb : h.natAbs < 2 ^ 53) :
    F64.div (F64.ofInt w) (F64.ofInt h) =
      f64OfFrac (xor (decide (w < 0)) (decide (h < 0))) w.natAbs h.natAbs := by
  obtain ⟨K, hK⟩ := F64.ofInt_exact w hw hwb
  obtain ⟨L, hL⟩ := F64.ofInt_exact h hh hhb
  rw [hK, hL]
  have hpK : (0 : Int) < 2 ^ K := by positivity
  have hpL : (0 : Int) < 2 ^ L := by positivity
  have s1 : decide (w * 2 ^ K < 0) = decide (w < 0) := by
    congr 1
    exact propext (by
      constructor
      · intro a
        by_contra hc
        have : 0 ≤ w * 2 ^ K := mul_nonneg (not_lt.mp hc) (le_of_lt hpK)
        omega
      · intro a
        exact mul_neg_of_neg_of_pos a hpK)
  have s2 : decide (h * 2 ^ L < 0) = decide (h < 0) := by
    congr 1
    exact propext (by
      constructor
      · intro a
        by_contra hc
        have : 0 ≤ h * 2 ^ L := mul_nonneg (not_lt.mp hc) (le_of_lt hpL)
        omega
      · intro a
        exact mul_neg_of_neg_of_pos a hpL)
  unfold F64.div
  simp only [s1, s2]
  have hpos : 0 < h.natAbs := Int.natAbs_pos.mpr hh
  apply f64OfFrac_congr _ _ _ _ _ _ hpos
  · simp only [Int.natAbs_mul, Int.natAbs_pow]
    have h2 : (2 : Int).natAbs = 2 := rfl
    rw [h2]
    by_cases hs : (0 : Int) ≤ -(K : Int) - -(L : Int)
    · simp only [hs, if_true, Nat.mul_one]
      have hLK : K ≤ L := by omega
      have : (-(K : Int) - -(L : Int)).toNat = L - K := by omega
      rw [this]
      calc w.natAbs * 2 ^ K * 2 ^ (L - K) * h.natAbs
          = w.natAbs * (2 ^ K * 2 ^ (L - K)) * h.natAbs := by ring
        _ = w.natAbs * 2 ^ L * h.natAbs := by rw [← pow_add, Nat.add_sub_cancel' hLK]
        _ = w.natAbs * (h.natAbs * 2 ^ L) := by ring
    · simp only [hs, if_false, Nat.mul_one]
      have hLK : L ≤ K := by omega
      have : (-(-(K : Int) - -(L : Int))).toNat = K - L := by omega
      rw [this]
      calc w.natAbs * 2 ^ K * h.natAbs
          = w.natAbs * (2 ^ L * 2 ^ (K - L)) * h.natAbs := by
            rw [← pow_add, Nat.add_sub_cancel' hLK]
        _ = w.natAbs * (h.natAbs * 2 ^ L * 2 ^ (K - L)) := by ring
  · apply Nat.mul_pos
    · simp only [Int.natAbs_mul, Int.natAbs_pow]
      exact Nat.mul_pos hpos (by positivity)
    · split_ifs
      · decide
      · positivity

theorem classifyRatio_eq_of_ratio (w h : Int) (p q : Nat) (hw : w ≠ 0) (hh : h ≠ 0)
    (hwb : w.natAbs < 2 ^ 53) (hhb : h.natAbs < 2 ^ 53) (hp : 0 < p) (hq : 0 < q)
    (hpb : p < 2 ^ 53) (hqb : q < 2 ^ 53) (e : (q : Int) * w = p * h) :
    classifyRatio w h = classifyRatio p q := by
  have hp0 : (p : Int) ≠ 0 := by omega
  have hq0 : (q : Int) ≠ 0 := by omega
  have d1 := F64.div_ofInt w h hw hh hwb hhb
  have d2 := F64.div_ofInt p q hp0 hq0 (by simpa using hpb) (by simpa using hqb)
  have hsign : xor (decide (w < 0)) (decide (h < 0)) = false := by
    have hqp : (0 : Int) < q := by omega
    have hpp : (0 : Int) < p := by omega
    by_cases h1 : w < 0 <;> by_cases h2 : h < 0
    · simp [h1, h2]
    · exfalso
      have a1 : (q : Int) * w < 0 := mul_neg_of_pos_of_neg hqp h1
      have a2 : 0 ≤ (p : Int) * h := mul_nonneg (le_of_lt hpp) (not_lt.mp h2)
      omega
    · exfalso
      have a1 : 0 ≤ (q : Int) * w := mul_nonneg (le_of_lt hqp) (not_lt.mp h1)
      have a2 : (p : Int) * h < 0 := mul_neg_of_pos_of_neg hpp h2
      omega
    · simp [h1, h2]
  have hsign2 : xor (decide ((p : Int) < 0)) (decide ((q : Int) < 0)) = false := by
    have h1 : ¬ (p : Int) < 0 := by omega
    have h2 : ¬ (q : Int) < 0 := by omega
    simp [h1, h2]
  have hnat : w.natAbs * q = p * h.natAbs := by
    have := congrArg Int.natAbs e
    simp only [Int.natAbs_mul, Int.natAbs_ofNat] at this
    rw [Nat.mul_comm] at this
    exact this
  have hdiv : F64.div (F64.ofInt w) (F64.ofInt h) = F64.div (F64.ofInt p) (F64.ofInt q) := by
    rw [d1, d2, hsign, hsign2]
    simp only [Int.natAbs_ofNat]
    exact f64OfFrac_congr false _ _ _ _ (Int.natAbs_pos.mpr hh) hq hnat
  unfold classifyRatio
  simp only [hdiv]

theorem band_gap (w h : Int) (a b : Nat) (hb : 0 < b) (hh : h ≠ 0)
    (hbound : 100 * (b : Int) * |h| ≤ 10 ^ 14) :
    (|(w : ℚ) / h - (a : ℚ) / b| < 1 / 100 →
      |(w : ℚ) / h - (a : ℚ) / b| ≤ 1 / 100 - 1 / 10 ^ 14) ∧
    (¬ |(w : ℚ) / h - (a : ℚ) / b| < 1 / 100 →
      1 / 100 + 1 / 10 ^ 14 ≤ |(w : ℚ) / h - (a : ℚ) / b| ∨
      100 * (b : Int) * w = (100 * a + b) * h ∨ 100 * (b : Int) * w = (100 * a - b) * h) := by
  have hbq : (0 : ℚ) < b := by exact_mod_cast hb
  have hhq : (h : ℚ) ≠ 0 := by exact_mod_cast hh
  have hs : (0 : Int) < b * |h| := mul_pos (by exact_mod_cast hb) (abs_pos.mpr hh)
  have hsq : (0 : ℚ) < (b : ℚ) * |(h : ℚ)| := mul_pos hbq (abs_pos.mpr hhq)
  have habs : |(w : ℚ) / h - (a : ℚ) / b| =
      ((|100 * (b : Int) * w - 100 * a * h| : Int) : ℚ) / (100 * ((b : ℚ) * |(h : ℚ)|)) := by
    have e1 : (w : ℚ) / h - (a : ℚ) / b =
        (100 * (b : ℚ) * w - 100 * a * h) / (100 * ((b : ℚ) * h)) := by
      field_simp
      ring
    rw [e1, abs_div, abs_mul, abs_mul, abs_of_pos hbq]
    push_cast
    norm_num
  have hbq' : (100 * ((b : ℚ) * |(h : ℚ)|)) ≤ 10 ^ 14 := by
    have : ((100 * (b : Int) * |h| : Int) : ℚ) ≤ ((10 ^ 14 : Int) : ℚ) := by exact_mod_cast hbound
    push_cast at this
    linarith
  have hD : (0 : ℚ) < 100 * ((b : ℚ) * |(h : ℚ)|) := by positivity
  have hinv : 1 / (10 : ℚ) ^ 14 ≤ 1 / (100 * ((b : ℚ) * |(h : ℚ)|)) :=
    one_div_le_one_div_of_le hD hbq'
  have hcast : (((b : Int) * |h| : Int) : ℚ) = (b : ℚ) * |(h : ℚ)| := by push_cast; rfl
  rw [habs]
  generalize ht : |100 * (b : Int) * w - 100 * a * h| = t
  constructor
  · intro hlt
    rw [div_lt_iff₀ hD] at hlt
    have h1 : (t : ℚ) < (((b : Int) * |h| : Int) : ℚ) := by
      rw [hcast]; linarith
    have h2 : t < (b : Int) * |h| := by exact_mod_cast h1
    have h3 : t ≤ (b : Int) * |h| - 1 := by omega
    have h4 : (t : ℚ) ≤ (b : ℚ) * |(h : ℚ)| - 1 := by
      have : (t : ℚ) ≤ (((b : Int) * |h| - 1 : Int) : ℚ) := by exact_mod_cast h3
      push_cast at this
      exact this
    have h5 : (t : ℚ) / (100 * ((b : ℚ) * |(h : ℚ)|)) ≤
        1 / 100 - 1 / (100 * ((b : ℚ) * |(h : ℚ)|)) := by
      rw [div_le_iff₀ hD]
      field_simp
      linarith
    linarith
  · intro hnlt
    rw [div_lt_iff₀ hD, not_lt] at hnlt
    have h1 : (((b : Int) * |h| : Int) : ℚ) ≤ (t : ℚ) := by
      rw [hcast]; linarith
    have h2 : (b : Int) * |h| ≤ t := by exact_mod_cast h1
    rcases eq_or_lt_of_le h2 with heq | hlt
    · right
      have hbh : (b : Int) * |h| = |(b : Int) * h| := by
        rw [abs_mul, abs_of_pos (show (0 : Int) < b by exact_mod_cast hb)]
      rw [← ht, hbh] at heq
      rcases abs_eq_abs.mp heq with h3 | h3
      · left
        linear_combination (-1 : Int) * h3
      · right
        linear_combination h3
    · left
      have h3 : (b : Int) * |h| + 1 ≤ t := by omega
      have h4 : (b : ℚ) * |(h : ℚ)| + 1 ≤ (t : ℚ) := by
        have : ((((b : Int) * |h| + 1 : Int)) : ℚ) ≤ (t : ℚ) := by exact_mod_cast h3
        push_cast at this
        exact this
      have h5 : 1 / 100 + 1 / (100 * ((b : ℚ) * |(h : ℚ)|)) ≤
          (t : ℚ) / (100 * ((b : ℚ) * |(h : ℚ)|)) := by
        rw [le_div_iff₀ hD]
        field_simp
        linarith
      linarith

theorem classifyRatio_exact (w h : Int) (hw : w ≠ 0) (hh : h ≠ 0) (hwb : |w| ≤ 10 ^ 10)
    (hhb : |h| ≤ 10 ^ 10) :
    (|(w : ℚ) / h - 16 / 9| < 1 / 100 → classifyRatio w h = "16:9") ∧
    (|(w : ℚ) / h - 9 / 16| < 1 / 100 → classifyRatio w h = "9:16") ∧
    (¬ |(w : ℚ) / h - 16 / 9| < 1 / 100 → ¬ |(w : ℚ) / h - 9 / 16| < 1 / 100 →
      classifyRatio w h = "other") := by
  obtain ⟨b1, b2, b3⟩ := classifyRatio_bands w h hh
  have g1 := band_gap w h 16 9 (by decide) hh (by push_cast; linarith)
  have g2 := band_gap w h 9 16 (by decide) hh (by push_cast; linarith)
  have e1 : ((16 : Nat) : ℚ) / ((9 : Nat) : ℚ) = 16 / 9 := by norm_num
  have e2 : ((9 : Nat) : ℚ) / ((16 : Nat) : ℚ) = 9 / 16 := by norm_num
  rw [e1] at g1
  rw [e2] at g2
  have hwn : w.natAbs < 2 ^ 53 := by
    have : (w.natAbs : Int) = |w| := Int.natCast_natAbs w
    omega
  have hhn : h.natAbs < 2 ^ 53 := by
    have : (h.natAbs : Int) = |h| := Int.natCast_natAbs h
    omega
  have c1 : classifyRatio ((1609 : Nat) : Int) ((900 : Nat) : Int) = "other" := by decide
  have c2 : classifyRatio ((1591 : Nat) : Int) ((900 : Nat) : Int) = "other" := by decide
  have c3 : classifyRatio ((916 : Nat) : Int) ((1600 : Nat) : Int) = "other" := by decide
  have c4 : classifyRatio ((884 : Nat) : Int) ((1600 : Nat) : Int) = "other" := by decide
  refine ⟨fun hx => b1 (g1.1 hx), fun hx => b2 (g2.1 hx), fun hx hy => ?_⟩
  rcases g1.2 hx with f1 | f1 | f1
  · rcases g2.2 hy with f2 | f2 | f2
    · exact b3 f1 f2
    · rw [classifyRatio_eq_of_ratio w h 916 1600 hw hh hwn hhn (by decide) (by decide)
        (by decide) (by decide) (by push_cast at f2 ⊢; linarith), c3]
    · rw [classifyRatio_eq_of_ratio w h 884 1600 hw hh hwn hhn (by decide) (by decide)
        (by decide) (by decide) (by push_cast at f2 ⊢; linarith), c4]
  · rw [classifyRatio_eq_of_ratio w h 1609 900 hw hh hwn hhn (by decide) (by decide)
      (by decide) (by decide) (by push_cast at f1 ⊢; linarith), c1]
  · rw [classifyRatio_eq_of_ratio w h 1591 900 hw hh hwn hhn (by decide) (by decide)
      (by decide) (by decide) (by push_cast at f1 ⊢; linarith), c2]

/-! ## Classification of the aspect ratio (C1) -/

/-- C1, as stated, fails: for width 16089999999999999 and height 9000000000000000 the exact
quotient is within 0.01 of 16/9, but `float64(width)` rounds to 16090000000000000, the float64
ratio is that of 1609/900, its float64 distance to 16/9 is not below 0.01, and
`getVideoAspectRatio` returns `"other"`. -/
theorem classify_exact_quotient_counterexample :
    |((16089999999999999 : Int) : ℚ) / ((9000000000000000 : Int) : ℚ) - 16 / 9| < 1 / 100 ∧
    getVideoAspectRatio (.parsed [⟨16089999999999999, 9000000000000000⟩]) = .ok "other" := by
  constructor
  · rw [abs_lt]
    norm_num
  · have h : classifyRatio 16089999999999999 9000000000000000 = "other" := by decide
    simp [getVideoAspectRatio, h]

/-- C1, amended: for non-zero integers `w`, `h` as the first stream's width and height, with
`w / h` the exact quotient: when `|w| ≤ 10¹⁰` and `|h| ≤ 10¹⁰`, `getVideoAspectRatio` returns
`"16:9"` (prefix `landscape`) when `|w/h - 16/9| < 0.01`, `"9:16"` (prefix `portrait`) when
`|w/h - 9/16| < 0.01`, and `"other"` in every remaining case; for integers of any size it
returns `"16:9"` when `|w/h - 16/9| ≤ 0.01 - 10⁻¹⁴`, `"9:16"` when
`|w/h - 9/16| ≤ 0.01 - 10⁻¹⁴`, and `"other"` when both distances are at least
`0.01 + 10⁻¹⁴` (closer to a band edge the float64 rounding of the code decides);
(1920,1080) is landscape, (1080,1920) is portrait and (1000,1000) is other. -/
theorem getVideoAspectRatio_bands (w h : Int) (rest : List Stream) (hw : w ≠ 0) (hh : h ≠ 0) :
    (|w| ≤ 10 ^ 10 → |h| ≤ 10 ^ 10 →
      (|(w : ℚ) / h - 16 / 9| < 1 / 100 →
        getVideoAspectRatio (.parsed (⟨w, h⟩ :: rest)) = .ok "16:9") ∧
      (|(w : ℚ) / h - 9 / 16| < 1 / 100 →
        getVideoAspectRatio (.parsed (⟨w, h⟩ :: rest)) = .ok "9:16") ∧
      (¬ |(w : ℚ) / h - 16 / 9| < 1 / 100 → ¬ |(w : ℚ) / h - 9 / 16| < 1 / 100 →
        getVideoAspectRatio (.parsed (⟨w, h⟩ :: rest)) = .ok "other")) ∧
    (|(w : ℚ) / h - 16 / 9| ≤ 1 / 100 - 1 / 10 ^ 14 →
      getVideoAspectRatio (.parsed (⟨w, h⟩ :: rest)) = .ok "16:9") ∧
    (|(w : ℚ) / h - 9 / 16| ≤ 1 / 100 - 1 / 10 ^ 14 →
      getVideoAspectRatio (.parsed (⟨w, h⟩ :: rest)) = .ok "9:16") ∧
    (1 / 100 + 1 / 10 ^ 14 ≤ |(w : ℚ) / h - 16 / 9| →
      1 / 100 + 1 / 10 ^ 14 ≤ |(w : ℚ) / h - 9 / 16| →
      getVideoAspectRatio (.parsed (⟨w, h⟩ :: rest)) = .ok "other") ∧
    filePrefixOf "16:9" = "landscape" ∧ filePrefixOf "9:16" = "portrait" ∧
    filePrefixOf "other" = "other" ∧
    getVideoAspectRatio (.parsed [⟨1920, 1080⟩]) = .ok "16:9" ∧
    getVideoAspectRatio (.parsed [⟨1080, 1920⟩]) = .ok "9:16" ∧
    getVideoAspectRatio (.parsed [⟨1000, 1000⟩]) = .ok "other" := by
  obtain ⟨h1, h2, h3⟩ := classifyRatio_bands w h hh
  have e : getVideoAspectRatio (.parsed (⟨w, h⟩ :: rest)) = .ok (classifyRatio w h) := by
    simp [getVideoAspectRatio, hw, hh]
  have c1 : classifyRatio 1920 1080 = "16:9" := by decide
  have c2 : classifyRatio 1080 1920 = "9:16" := by decide
  have c3 : classifyRatio 1000 1000 = "other" := by decide
  refine ⟨fun hwb hhb => ?_, fun hx => ?_, fun hx => ?_, fun hx hy => ?_, by decide,
    by decide, by decide, ?_, ?_, ?_⟩
  · obtain ⟨x1, x2, x3⟩ := classifyRatio_exact w h hw hh hwb hhb
    exact ⟨fun hx => by rw [e, x1 hx], fun hx => by rw [e, x2 hx],
      fun hx hy => by rw [e, x3 hx hy]⟩
  · rw [e, h1 hx]
  · rw [e, h2 hx]
  · rw [e, h3 hx hy]
  · simp [getVideoAspectRatio, c1]
  · simp [getVideoAspectRatio, c2]
  · simp [getVideoAspectRatio, c3]

/-- Witness of C1 (amended): width 1280 and height 720, whose quotient is 16/9. -/
theorem getVideoAspectRatio_bands_witness :
    ((1280 : Int) ≠ 0 ∧ (720 : Int) ≠ 0 ∧ |(1280 : Int)| ≤ 10 ^ 10 ∧ |(720 : Int)| ≤ 10 ^ 10 ∧
      |((1280 : Int) : ℚ) / ((720 : Int) : ℚ) - 16 / 9| < 1 / 100) ∧
    getVideoAspectRatio (.parsed (⟨1280, 720⟩ :: [])) = .ok "16:9" :=
  ⟨⟨by decide, by decide, by decide, by decide, by norm_num⟩,
    ((getVideoAspectRatio_bands 1280 720 [] (by decide) (by decide)).1 (by decide)
      (by decide)).1 (by norm_num)⟩

set_option maxRecDepth 100000 in
/-- Witness of C8: the request of `demoEnv`, whose probe reports 1280x720; the handler
stores the object under the `landscape` prefix and records its bucket and key. -/
theorem persisted_locator_decodes_witness :
    (',' ∉ demoEnv.s3Bucket.data ∧
      (handlerUploadVideo demoEnv demoWorld).objects =
        [("tube-private-12345", "landscape/AAECAwQFBgcICQoLDA0ODw.mp4")] ∧
      (handlerUploadVideo demoEnv demoWorld).db =
        [⟨1, 7, some "tube-private-12345,landscape/AAECAwQFBgcICQoLDA0ODw.mp4", none⟩]) ∧
    locatorFields (sprintfVideoURL demoEnv.s3Bucket (filePrefixOf "16:9")
        (fileKeyString (List.ofFn (fun i : Fin 16 => (Fin.ofNat i.val : Byte))))) =
      some (demoEnv.s3Bucket, filePrefixOf "16:9" ++ "/" ++
        fileKeyString (List.ofFn (fun i : Fin 16 => (Fin.ofNat i.val : Byte)))) :=
  ⟨by decide,
    (persisted_locator_decodes demoEnv ⟨1, 7, none, none⟩ "video/mp4" "16:9" demoWorld
      (fun i => Fin.ofNat i.val) (by decide) rfl rfl).2.2.1⟩

end Tubely
